import Mathlib

set_option maxHeartbeats 1000000

/-!
Verification development for the meshcore connectivity-analysis repository.

The Rust sources are embedded shallowly:

* `f64` values are modelled as real numbers (`ℝ`); an `f64` that can be the
  IEEE infinity sentinel is modelled as `Option ℝ` with `none` standing for
  `+∞` (no NaN arises on the modelled paths).
* `HashMap`s are modelled as association lists.  A `HashMap`'s iteration
  order is unspecified in Rust, so every place the source iterates a map the
  model takes the list in an order chosen by an explicit `reorder` schedule;
  theorems quantify over schedules that permute the list.
* Fallible code is modelled with `Except String`; a Rust panic is modelled
  by `Option` with `none` for the panic.
-/

namespace MeshCore

/-- `PathNode` from `src/src/models.rs` (the identical enum is also declared
in `src/src/viterbi.rs`): `Known(usize)` or `Unknown(u8)`. -/
inductive PathNode where
  | known : Nat → PathNode
  | unknown : Nat → PathNode
deriving DecidableEq

/-- `COST_TRANSITION_UNKNOWN_TO_UNKNOWN` from `src/src/graph.rs`: cost for
staying in the Unknown state. -/
noncomputable def COST_TRANSITION_UNKNOWN_TO_UNKNOWN : ℝ := 8.0

/-- `COST_TRANSITION_UNKNOWN_TO_KNOWN` from `src/src/graph.rs`: cost for
recovering from the Unknown state to a Known node, `8.0 - 1.0e-6`. -/
noncomputable def COST_TRANSITION_UNKNOWN_TO_KNOWN : ℝ := 8.0 - 1.0e-6

/-- `COST_TRANSITION_KNOWN_TO_UNKNOWN` from `src/src/graph.rs`: cost for
entering the Unknown state from a Known node, `8.0 - 2.0e-6`. -/
noncomputable def COST_TRANSITION_KNOWN_TO_UNKNOWN : ℝ := 8.0 - 2.0e-6

/-- `COST_START_KNOWN` from `src/src/graph.rs`: initial cost for Known nodes
matching the first observation. -/
noncomputable def COST_START_KNOWN : ℝ := -0.1

/-- Association-list lookup (first entry with the key wins; the maps built
below never hold a key twice, matching `HashMap`). -/
def alookup {β : Type} (k : Nat) : List (Nat × β) → Option β
  | [] => none
  | (k', v) :: rest => if k' = k then some v else alookup k rest

/-- The decoder's per-step map of active states: state index to cost
(`current_costs` in `NetworkGraph::decode_path`), in iteration order. -/
abbrev CostMap : Type := List (Nat × ℝ)

/-- One step's combined cost and back-pointer map: state index to
(cost, predecessor).  In the source these are the lock-step updated
`next_costs` and `step_backpointers` maps. -/
abbrev StepMap : Type := List (Nat × ℝ × Nat)

/-- An iteration-order schedule for the `HashMap`s the decoder walks:
`reorder t` is the order in which the map entering step `t+1` is iterated.
Faithful schedules permute the list. -/
abbrev Reorder : Type := Nat → CostMap → CostMap

/-- `HashMap::insert` on the initial cost map: overwrite the key's value or
add the entry.  Where a fresh entry lands in iteration order is unspecified;
the schedule absorbs the choice. -/
def insertOver (k : Nat) (v : ℝ) (m : CostMap) : CostMap :=
  if (alookup k m).isSome then m.map (fun e => if e.1 = k then (k, v) else e)
  else m ++ [(k, v)]

/-- The source's `next_costs.entry(k).or_insert(f64::INFINITY)` followed by
`if c < *entry { *entry = c; step_backpointers.insert(k, p) }`.  Every cost
the decoder inserts is finite, so a fresh key (whose sentinel is `+∞`) is
always written; absence models the sentinel. -/
noncomputable def updateMin (m : StepMap) (k : Nat) (c : ℝ) (p : Nat) : StepMap :=
  match alookup k m with
  | none => m ++ [(k, c, p)]
  | some cp => if c < cp.1 then m.map (fun e => if e.1 = k then (k, c, p) else e) else m

/-- The `NetworkGraph` data of `src/src/graph.rs`: node count, sparse
adjacency rows, the 256-entry by-first-byte index, and each node's
identifier first byte (`Repeater::prefix` of node `i`). -/
structure NetworkGraph where
  numNodes : Nat
  adjacency : List (List (Nat × ℝ))
  nodesByPfx : Nat → List Nat
  pfxOf : Nat → Nat

/-- One iteration of the decoder's forward-pass loop body over a single
previous active state (`for (&prev_idx, &prev_cost) in &current_costs`):
Known predecessors relax their adjacency rows (emission-filtered) and the
Known→Unknown transition; the Unknown predecessor relaxes Unknown→Known for
every index in `nodes_by_prefix[obs]` and Unknown→Unknown. -/
noncomputable def transFrom (g : NetworkGraph) (obs : Nat) (m : StepMap) (pc : Nat × ℝ) :
    StepMap :=
  if pc.1 < g.numNodes then
    let m1 := ((g.adjacency.get? pc.1).getD []).foldl
      (fun acc e =>
        if g.pfxOf e.1 = obs then updateMin acc e.1 (pc.2 + e.2) pc.1 else acc) m
    updateMin m1 g.numNodes (pc.2 + COST_TRANSITION_KNOWN_TO_UNKNOWN) pc.1
  else
    let m1 := (g.nodesByPfx obs).foldl
      (fun acc j => updateMin acc j (pc.2 + COST_TRANSITION_UNKNOWN_TO_KNOWN) pc.1) m
    updateMin m1 g.numNodes (pc.2 + COST_TRANSITION_UNKNOWN_TO_UNKNOWN) pc.1

/-- One forward-pass step of `NetworkGraph::decode_path`: fold the loop body
over the previous step's active states in iteration order. -/
noncomputable def stepAll (g : NetworkGraph) (obs : Nat) (cur : CostMap) : StepMap :=
  cur.foldl (transFrom g obs) []

/-- Drop the back-pointers: the `next_costs` content that becomes
`current_costs`. -/
def stripBp (m : StepMap) : CostMap := m.map (fun e => (e.1, e.2.1))

/-- The decoder's forward pass over the remaining observations, accumulating
each step's back-pointer map (newest first).  Mirrors `for t in 1..t_steps`
with the `next_costs.is_empty()` error check. -/
noncomputable def forward (g : NetworkGraph) (reorder : Reorder) :
    List Nat → Nat → CostMap → List StepMap → Except String (CostMap × List StepMap)
  | [], _, cur, bps => .ok (cur, bps)
  | obs :: rest, t, cur, bps =>
    let m := stepAll g obs cur
    if m.isEmpty then
      .error ("Viterbi stuck at step " ++ toString t ++ ": no reachable states")
    else forward g reorder rest (t + 1) (reorder t (stripBp m)) (m :: bps)

/-- Step-0 initialisation: insert every node of `nodes_by_prefix[o₁]` at
`COST_START_KNOWN`, then the Unknown state at `0.0`. -/
noncomputable def initMap (g : NetworkGraph) (firstObs : Nat) : CostMap :=
  insertOver g.numNodes 0
    ((g.nodesByPfx firstObs).foldl (fun m i => insertOver i COST_START_KNOWN m) [])

/-- The termination scan's deterministic key order: the source collects the
final map's keys and `sort_unstable`s them ascending. -/
def sortedKeys (m : CostMap) : List Nat := List.insertionSort (· ≤ ·) (m.map Prod.fst)

/-- One step of the termination scan: take the key when no state is held
yet (`best_final_cost` starts at `+∞`) or when its cost is strictly lower. -/
noncomputable def selStep (cur : CostMap) (best : Option (Nat × ℝ)) (k : Nat) :
    Option (Nat × ℝ) :=
  match best with
  | none => some (k, (alookup k cur).getD 0)
  | some bc =>
    if (alookup k cur).getD 0 < bc.2 then some (k, (alookup k cur).getD 0)
    else some bc

/-- Termination: walk the sorted keys keeping the first strict-minimum cost. -/
noncomputable def selectBest (cur : CostMap) : Option Nat :=
  ((sortedKeys cur).foldl (selStep cur) none).map Prod.fst

/-- Well-chained back-pointer layers: every state of `S` has an entry in the
newest layer whose back-pointer lies in the start-state set of the next
layer, all the way down.  The forward pass establishes this invariant, and
backtracking consumes it. -/
inductive Layers : List StepMap → List Nat → Prop where
  | nil : ∀ S, Layers [] S
  | cons : ∀ (b : StepMap) (rest : List StepMap) (S Sprev : List Nat),
      (∀ k ∈ S, k ∈ b.map Prod.fst) →
      (∀ e ∈ b, e.2.2 ∈ Sprev) →
      Layers rest Sprev →
      Layers (b :: rest) S

/-- Backtracking through the per-step back-pointer maps (newest first),
producing the reverse-chronological state list, or the source's broken-path
error.  The step number in the message is the source's loop variable `t`. -/
def backtrack : List StepMap → Nat → Except String (List Nat)
  | [], idx => .ok [idx]
  | b :: rest, idx =>
    match alookup idx b with
    | some cp =>
      match backtrack rest cp.2 with
      | .ok l => .ok (idx :: l)
      | .error e => .error e
    | none =>
      .error ("Broken path during backtracking at step " ++ toString (rest.length + 1))

/-- The source's `to_path_node` closure: indices below `nodes.len()` become
`Known`, the Unknown state becomes `Unknown(observations[step_idx])`. -/
def toPathNode (g : NetworkGraph) (observations : List Nat) (idx stepIdx : Nat) : PathNode :=
  if idx < g.numNodes then .known idx else .unknown (observations.getD stepIdx 0)

/-- `NetworkGraph::decode_path` from `src/src/graph.rs`, parametric in the
`HashMap` iteration-order schedule. -/
noncomputable def decodePath (g : NetworkGraph) (reorder : Reorder) (observations : List Nat) :
    Except String (List PathNode) :=
  match observations with
  | [] => .ok []
  | firstObs :: rest =>
    match forward g reorder rest 1 (reorder 0 (initMap g firstObs)) [] with
    | .error e => .error e
    | .ok (cur, bps) =>
      match selectBest cur with
      | none => .error "No valid path found (final state unreachable)"
      | some finalState =>
        match backtrack bps finalState with
        | .error e => .error e
        | .ok idxs =>
          .ok (idxs.reverse.enum.map (fun p => toPathNode g observations p.2 p.1))

/-- The empty graph (zero repeaters), used to instantiate general decoder
theorems at a concrete input. -/
def emptyGraph : NetworkGraph :=
  { numNodes := 0, adjacency := [], nodesByPfx := fun _ => [], pfxOf := fun _ => 0 }

/-- The identity iteration-order schedule (one admissible `HashMap` order). -/
def idReorder : Reorder := fun _ l => l

/-- Piecewise real model of `f64::atan2(y, x)`.  Only the `0 < x` branch is
exercised by the developments below. -/
noncomputable def atan2 (y x : ℝ) : ℝ :=
  if 0 < x then Real.arctan (y / x)
  else if x < 0 ∧ 0 ≤ y then Real.arctan (y / x) + Real.pi
  else if x < 0 ∧ y < 0 then Real.arctan (y / x) - Real.pi
  else if x = 0 ∧ 0 < y then Real.pi / 2
  else if x = 0 ∧ y < 0 then -(Real.pi / 2)
  else 0

/-- `haversine_distance` from `src/src/physics.rs` (radius 6371 km,
`to_radians` is multiplication by `π/180`). -/
noncomputable def haversineKm (lat1 lon1 lat2 lon2 : ℝ) : ℝ :=
  let lat1R := lat1 * (Real.pi / 180)
  let lon1R := lon1 * (Real.pi / 180)
  let lat2R := lat2 * (Real.pi / 180)
  let lon2R := lon2 * (Real.pi / 180)
  let dlat := lat2R - lat1R
  let dlon := lon2R - lon1R
  let a := Real.sin (dlat / 2) ^ 2 +
    Real.cos lat1R * Real.cos lat2R * Real.sin (dlon / 2) ^ 2
  let c := 2 * atan2 (Real.sqrt a) (Real.sqrt (1 - a))
  6371 * c

/-- `earth_bulge` from `src/src/physics.rs`: `d²/(8R)` in meters, `0` for
non-positive input. -/
noncomputable def earthBulge (distanceKm : ℝ) : ℝ :=
  if distanceKm ≤ 0 then 0
  else (distanceKm * 1000) * (distanceKm * 1000) / (8 * (6371 * 1000))

/-- `TerrainTile` from `src/src/terrain.rs`: bounds, grid dimensions and
row-major elevation samples (row 0 at `min_lat`). -/
structure TerrainTile where
  minLat : ℝ
  minLon : ℝ
  maxLat : ℝ
  maxLon : ℝ
  width : Nat
  height : Nat
  data : List ℝ

/-- `TerrainTile::contains`. -/
def TerrainTile.containsP (t : TerrainTile) (lat lon : ℝ) : Prop :=
  t.minLat ≤ lat ∧ lat ≤ t.maxLat ∧ t.minLon ≤ lon ∧ lon ≤ t.maxLon

noncomputable instance (t : TerrainTile) (lat lon : ℝ) :
    Decidable (t.containsP lat lon) := by
  unfold TerrainTile.containsP
  infer_instance

/-- `TerrainTile::get_elevation`: 0 outside the tile, bilinear interpolation
inside.  `as usize` casts are `Int.toNat` of the floor (saturating at 0, as
in Rust); the `self.data[...]` indexing is modelled with `getD 0` — for a
well-formed tile the clamped indices are always in range. -/
noncomputable def TerrainTile.getElevation (t : TerrainTile) (lat lon : ℝ) : ℝ :=
  if ¬ t.containsP lat lon then 0
  else
    let latNorm := (lat - t.minLat) / (t.maxLat - t.minLat)
    let lonNorm := (lon - t.minLon) / (t.maxLon - t.minLon)
    let rFloat := latNorm * ((t.height - 1 : Nat) : ℝ)
    let cFloat := lonNorm * ((t.width - 1 : Nat) : ℝ)
    let r0 := (Int.floor rFloat).toNat
    let c0 := (Int.floor cFloat).toNat
    let r1 := min (r0 + 1) (t.height - 1)
    let c1 := min (c0 + 1) (t.width - 1)
    let dr := rFloat - (r0 : ℝ)
    let dc := cFloat - (c0 : ℝ)
    let h00 := t.data.getD (r0 * t.width + c0) 0
    let h01 := t.data.getD (r0 * t.width + c1) 0
    let h10 := t.data.getD (r1 * t.width + c0) 0
    let h11 := t.data.getD (r1 * t.width + c1) 0
    let h0 := h00 * (1 - dc) + h01 * dc
    let h1 := h10 * (1 - dc) + h11 * dc
    h0 * (1 - dr) + h1 * dr

/-- `TerrainMap::get_elevation`: the first tile containing the point decides,
`none` otherwise.  A `TerrainMap` is its ordered tile list. -/
noncomputable def mapGetElevation : List TerrainTile → ℝ → ℝ → Option ℝ
  | [], _, _ => none
  | t :: ts, lat, lon =>
    if t.containsP lat lon then some (t.getElevation lat lon)
    else mapGetElevation ts lat lon

/-- The interior-sample loop of `TerrainMap::check_line_of_sight`
(`for i in 1..steps`), with the source's linear interpolation, earth-curvature
rise `d1·d2/(2R)` and missing-data error. -/
noncomputable def losLoop (m : List TerrainTile)
    (lat1 lon1 lat2 lon2 distKm hStart hEnd : ℝ) (steps : Nat) (i : Nat) :
    Except String Bool :=
  if i < steps then
    let t : ℝ := (i : ℝ) / (steps : ℝ)
    let lat := lat1 + (lat2 - lat1) * t
    let lon := lon1 + (lon2 - lon1) * t
    let rayH := hStart * (1 - t) + hEnd * t
    let d1M := distKm * t * 1000
    let d2M := distKm * (1 - t) * 1000
    let curvatureM := d1M * d2M / (2 * (6371 * 1000))
    match mapGetElevation m lat lon with
    | none => .error "Missing terrain data along path"
    | some terrainH =>
      if rayH < terrainH + curvatureM then .ok false
      else losLoop m lat1 lon1 lat2 lon2 distKm hStart hEnd steps (i + 1)
  else .ok true
termination_by steps - i

/-- `TerrainMap::check_line_of_sight` from `src/src/terrain.rs`:
`Ok true` = clear, `Ok false` = blocked, `Err` = missing terrain datum.
`steps` is `(d_m/30).ceil() as usize`; zero distance or fewer than two steps
is trivially clear; endpoint elevations are resolved first (fail fast). -/
noncomputable def checkLineOfSight (m : List TerrainTile)
    (lat1 lon1 h1M lat2 lon2 h2M : ℝ) : Except String Bool :=
  let distKm := haversineKm lat1 lon1 lat2 lon2
  if distKm = 0 then .ok true
  else
    let steps := (Int.ceil (distKm * 1000 / 30)).toNat
    if steps < 2 then .ok true
    else
      match mapGetElevation m lat1 lon1 with
      | none => .error "Missing terrain data at start"
      | some startElev =>
        match mapGetElevation m lat2 lon2 with
        | none => .error "Missing terrain data at end"
        | some endElev =>
          losLoop m lat1 lon1 lat2 lon2 distKm (startElev + h1M) (endElev + h2M) steps 1

/-- The terrain-free tail of `link_cost` (`src/src/physics.rs`): the 150 km
hard cutoff, the distance and earth-bulge sigmoids, the `1e-10` probability
floor.  `none` models the `f64` value `+∞`. -/
noncomputable def linkCostClear (lat1 lon1 lat2 lon2 : ℝ) : Option ℝ :=
  let distKm := haversineKm lat1 lon1 lat2 lon2
  if 150 < distKm then none
  else
    let bulgeM := earthBulge distKm
    let distProb := 1 / (1 + Real.exp (0.15 * (distKm - 60)))
    let bulgeProb := 1 / (1 + Real.exp (0.5 * (bulgeM - 40)))
    let combinedProb := distProb * bulgeProb
    if combinedProb < 1e-10 then some 1000 else some (-Real.log combinedProb)

/-- `link_cost` from `src/src/physics.rs`.  The source declares the return
type `f64` yet applies `!` directly to the `Result<bool>` value of
`check_line_of_sight`, which does not type-check in Rust; the model keeps
the source's control flow — when a terrain map is supplied the line-of-sight
check runs first, a blocked ray returns the finite 2000.0 sentinel before
the distance cutoff is ever consulted, a clear ray falls through to the
distance logic — and surfaces the line-of-sight error through `Except`,
something the `f64` signature of the source cannot do (see C7). -/
noncomputable def linkCost (lat1 lon1 lat2 lon2 : ℝ)
    (terrain : Option (List TerrainTile)) : Except String (Option ℝ) :=
  match terrain with
  | some m =>
    match checkLineOfSight m lat1 lon1 30 lat2 lon2 30 with
    | .error e => .error e
    | .ok false => .ok (some 2000)
    | .ok true => .ok (linkCostClear lat1 lon1 lat2 lon2)
  | none => .ok (linkCostClear lat1 lon1 lat2 lon2)

/-- A single flat sea-level tile covering latitudes `[-1, 1]` and longitudes
`[-1, 2]`, used as a concrete terrain map. -/
noncomputable def flatTile : TerrainTile :=
  { minLat := -1, minLon := -1, maxLat := 1, maxLon := 2
    width := 2, height := 2, data := [0, 0, 0, 0] }

/-- The terrain map holding just `flatTile`. -/
noncomputable def flatTerrain : List TerrainTile := [flatTile]

/-- The repeated strip of leading `"0x"` matches performed by
`id.trim_start_matches("0x")` in `Repeater::prefix` (`src/src/models.rs`). -/
def trimStart0x : List Char → List Char
  | '0' :: 'x' :: rest => trimStart0x rest
  | s => s

/-- One hex digit as `u8::from_str_radix(_, 16)` accepts it (both cases). -/
def hexVal (c : Char) : Option Nat :=
  if '0' ≤ c ∧ c ≤ '9' then some (c.toNat - '0'.toNat)
  else if 'a' ≤ c ∧ c ≤ 'f' then some (c.toNat - 'a'.toNat + 10)
  else if 'A' ≤ c ∧ c ≤ 'F' then some (c.toNat - 'A'.toNat + 10)
  else none

/-- `u8::from_str_radix(s, 16)` on a two-character slice: an optional leading
`+` (accepted by Rust for unsigned integers), then at least one hex digit.
Two hex digits are at most 255, so no `u8` overflow can occur here. -/
def fromStrRadix16Pair (c1 c2 : Char) : Option Nat :=
  if c1 = '+' then hexVal c2
  else
    match hexVal c1, hexVal c2 with
    | some v1, some v2 => some (16 * v1 + v2)
    | _, _ => none

/-- `Repeater::prefix` from `src/src/models.rs`, at character granularity
(repeater ids are ASCII hex strings).  The byte slice `&clean_id[0..2]`
panics when the trimmed id has fewer than two characters — modelled as
`none`; otherwise `unwrap_or(0)` maps a failed parse to 0. -/
def pfxOfId (id : List Char) : Option Nat :=
  match trimStart0x id with
  | c1 :: c2 :: _ => some ((fromStrRadix16Pair c1 c2).getD 0)
  | _ => none

/-- `Repeater` from `src/src/models.rs` (identifier and name at character
granularity, WGS-84 degrees as reals). -/
structure Repeater where
  id : List Char
  name : List Char
  lat : ℝ
  lon : ℝ

/-- The first byte as the graph builder and the dense decoder read it
(`node.prefix()`).  Both only call it on repeaters whose ids have at least
two characters, where `Repeater::prefix` returns a value; `getD 0` stands in
for the panic that cannot occur there. -/
def Repeater.pfxByte (r : Repeater) : Nat := (pfxOfId r.id).getD 0

/-- The search half-width `(150.0 / 111.0) * 1.2` degrees from
`NetworkGraph::new`. -/
noncomputable def searchRadiusDeg : ℝ := 150 / 111 * 1.2

/-- The R-tree envelope test of `NetworkGraph::new`: `locate_in_envelope`
returns exactly the nodes whose `(lon, lat)` lies in the query box. -/
def inEnvelope (node nb : Repeater) : Prop :=
  node.lon - searchRadiusDeg ≤ nb.lon ∧ nb.lon ≤ node.lon + searchRadiusDeg ∧
  node.lat - searchRadiusDeg ≤ nb.lat ∧ nb.lat ≤ node.lat + searchRadiusDeg

noncomputable instance (node nb : Repeater) : Decidable (inEnvelope node nb) := by
  unfold inEnvelope
  infer_instance

/-- One adjacency row of `NetworkGraph::new`: envelope-filtered candidates in
index order (the R-tree's iteration order is unspecified; the row's content
is what matters), self excluded, an edge kept when `link_cost` is finite and
strictly below 1000.  A link whose terrain check errors is omitted, as the
error-handling design prescribes for graph construction. -/
noncomputable def mkAdjRow (nodes : List Repeater) (terrain : Option (List TerrainTile))
    (i : Nat) (node : Repeater) : List (Nat × ℝ) :=
  nodes.enum.filterMap (fun jnb =>
    if jnb.1 = i then none
    else if inEnvelope node jnb.2 then
      match linkCost node.lat node.lon jnb.2.lat jnb.2.lon terrain with
      | .ok (some c) => if c < 1000 then some (jnb.1, c) else none
      | _ => none
    else none)

/-- `NetworkGraph::new` from `src/src/graph.rs`: node count, per-node
adjacency rows, the by-first-byte index (pushed in index order), and each
node's first byte. -/
noncomputable def mkGraph (nodes : List Repeater) (terrain : Option (List TerrainTile)) :
    NetworkGraph :=
  { numNodes := nodes.length
    adjacency := nodes.enum.map (fun inode => mkAdjRow nodes terrain inode.1 inode.2)
    nodesByPfx := fun p =>
      nodes.enum.filterMap (fun inode => if inode.2.pfxByte = p then some inode.1 else none)
    pfxOf := fun i => ((nodes.get? i).map Repeater.pfxByte).getD 0 }

/-- Scenario S2's repeater `A00000` at `(0, 0)`. -/
noncomputable def repA : Repeater :=
  { id := ['A', '0', '0', '0', '0', '0'], name := [], lat := 0, lon := 0 }

/-- Scenario S2's repeater `B00000` at `(0, 10)` (≈1112 km from `repA`). -/
noncomputable def repB : Repeater :=
  { id := ['B', '0', '0', '0', '0', '0'], name := [], lat := 0, lon := 10 }

/-- Scenario S2's repeater list. -/
noncomputable def s2Nodes : List Repeater := [repA, repB]

/-- The graph `NetworkGraph::new` builds for scenario S2 without terrain. -/
noncomputable def s2Graph : NetworkGraph := mkGraph s2Nodes none

/-- A second repeater sharing `repA`'s first byte (`A00001`), placed at
`(0, 10)`: with observation `[0xA0, 0xB0]` the two starts tie exactly. -/
noncomputable def repA2 : Repeater :=
  { id := ['A', '0', '0', '0', '0', '1'], name := [], lat := 0, lon := 10 }

/-- The repeater list exposing the forward-pass tie. -/
noncomputable def tieNodes : List Repeater := [repA, repA2]

/-- The graph for the tie scenario. -/
noncomputable def tieGraph : NetworkGraph := mkGraph tieNodes none

/-- Swap of the first two entries: one admissible `HashMap` iteration order
of a map, differing from the insertion order. -/
def swap2 : List (Nat × ℝ) → List (Nat × ℝ)
  | a :: b :: rest => b :: a :: rest
  | l => l

/-- The iteration-order schedule that enumerates the step-0 cost map with
its first two entries exchanged and every later map in insertion order. -/
def swapReorder : Reorder := fun t l => if t = 0 then swap2 l else l

/-- A trellis cell of the dense decoder (`src/src/viterbi.rs`): `cost = none`
models the `f64::INFINITY` initialisation, `prevNodeIdx` the back-pointer. -/
structure TrellisNode where
  cost : Option ℝ
  prevNodeIdx : Option Nat

/-- `UNKNOWN_LINK_COST` from `src/src/viterbi.rs`: the fixed penalty for any
transition involving the Unknown state (no epsilons in the dense decoder). -/
noncomputable def UNKNOWN_LINK_COST : ℝ := 8.0

/-- Out-of-range placeholder for `nodes[...]` reads; the dense decoder only
indexes states below `nodes.len()`, where it is never used. -/
noncomputable def defaultRep : Repeater := { id := [], name := [], lat := 0, lon := 0 }

/-- The `f64` value the dense decoder reads from `link_cost`.  With
`terrain = none` (the only case the claims below exercise) this is exact;
a terrain error has no `f64` representation (see C7) and is mapped to the
infinity sentinel here. -/
noncomputable def linkCostF (lat1 lon1 lat2 lon2 : ℝ)
    (terrain : Option (List TerrainTile)) : Option ℝ :=
  match linkCost lat1 lon1 lat2 lon2 terrain with
  | .ok v => v
  | .error _ => none

/-- The step-0 trellis row of `viterbi::decode_path`: matching Known nodes
and the Unknown state at cost `0.0`, everything else `+∞`. -/
noncomputable def vitInitRow (nodes : List Repeater) (firstObs : Nat) : List TrellisNode :=
  (List.range (nodes.length + 1)).map (fun i =>
    if i < nodes.length then
      (if (nodes.getD i defaultRep).pfxByte = firstObs then ⟨some 0, none⟩
       else ⟨none, none⟩)
    else ⟨some 0, none⟩)

/-- One cell of a dense forward step: the emission check, then the minimum of
`prev_cost + trans_cost` over previous states in ascending order (strict
`<`, so the first minimum wins); infinite previous costs and infinite
transition costs are skipped. -/
noncomputable def vitCell (nodes : List Repeater) (terrain : Option (List TerrainTile))
    (prevRow : List TrellisNode) (obs : Nat) (currState : Nat) : TrellisNode :=
  if currState < nodes.length ∧ (nodes.getD currState defaultRep).pfxByte ≠ obs then
    ⟨none, none⟩
  else
    (List.range (nodes.length + 1)).foldl (fun best prevState =>
      match (prevRow.getD prevState ⟨none, none⟩).cost with
      | none => best
      | some prevCost =>
        match
          (if currState < nodes.length ∧ prevState < nodes.length then
            linkCostF (nodes.getD prevState defaultRep).lat
              (nodes.getD prevState defaultRep).lon
              (nodes.getD currState defaultRep).lat
              (nodes.getD currState defaultRep).lon terrain
          else some UNKNOWN_LINK_COST) with
        | none => best
        | some tc =>
          match best.cost with
          | none => ⟨some (prevCost + tc), some prevState⟩
          | some bc =>
            if prevCost + tc < bc then ⟨some (prevCost + tc), some prevState⟩ else best)
      ⟨none, none⟩

/-- One dense forward step over all `N+1` states. -/
noncomputable def vitStep (nodes : List Repeater) (terrain : Option (List TerrainTile))
    (prevRow : List TrellisNode) (obs : Nat) : List TrellisNode :=
  (List.range (nodes.length + 1)).map (vitCell nodes terrain prevRow obs)

/-- The dense forward pass (`for t in 1..t_steps`), accumulating rows newest
first, with the `any_reachable` stuck check. -/
noncomputable def vitForward (nodes : List Repeater) (terrain : Option (List TerrainTile)) :
    List Nat → Nat → List (List TrellisNode) → Except String (List (List TrellisNode))
  | [], _, rows => .ok rows
  | obs :: rest, t, rows =>
    let row := vitStep nodes terrain (rows.headD []) obs
    if row.any (fun c => c.cost.isSome) then vitForward nodes terrain rest (t + 1) (row :: rows)
    else .error ("Viterbi stuck at step " ++ toString t ++ ": no reachable states")

/-- The dense termination scan: ascending state order, strict `<` against a
`+∞` start. -/
noncomputable def vitSelect (numStates : Nat) (lastRow : List TrellisNode) : Option Nat :=
  ((List.range numStates).foldl (fun best i =>
    match (lastRow.getD i ⟨none, none⟩).cost with
    | none => best
    | some c =>
      match best with
      | none => some (i, c)
      | some bc => if c < bc.2 then some (i, c) else best) none).map Prod.fst

/-- Dense backtracking over the rows (newest first); stops once only the
step-0 row remains, mirroring `for t in (1..t_steps).rev()`. -/
noncomputable def vitBacktrack : List (List TrellisNode) → Nat → Except String (List Nat)
  | [], idx => .ok [idx]
  | [_], idx => .ok [idx]
  | row :: rest, idx =>
    match (row.getD idx ⟨none, none⟩).prevNodeIdx with
    | some p =>
      match vitBacktrack rest p with
      | .ok l => .ok (idx :: l)
      | .error e => .error e
    | none => .error ("Broken path during backtracking at step " ++ toString rest.length)

/-- `viterbi::decode_path` from `src/src/viterbi.rs`: the dense
`(N+1)`-state trellis decoder computing `link_cost` on the fly. -/
noncomputable def vitDecodePath (nodes : List Repeater) (observations : List Nat)
    (terrain : Option (List TerrainTile)) : Except String (List PathNode) :=
  match observations with
  | [] => .ok []
  | firstObs :: rest =>
    match vitForward nodes terrain rest 1 [vitInitRow nodes firstObs] with
    | .error e => .error e
    | .ok rows =>
      match vitSelect (nodes.length + 1) (rows.headD []) with
      | none => .error "No valid path found (final state unreachable)"
      | some finalState =>
        match vitBacktrack rows finalState with
        | .error e => .error e
        | .ok idxs =>
          .ok (idxs.reverse.enum.map (fun p =>
            if p.2 < nodes.length then PathNode.known p.2
            else PathNode.unknown (observations.getD p.1 0)))

/-- `PointStatus` from `src/src/localization.rs`. -/
inductive PointStatus where
  | unvisited
  | visited
  | noise
deriving DecidableEq

/-- A `LinkMidpoint` as its `(lat, lon)` pair. -/
abbrev Midpoint : Type := ℝ × ℝ

/-- `DBSCAN_EPSILON_KM` from `src/src/localization.rs`. -/
noncomputable def DBSCAN_EPSILON_KM : ℝ := 50.0

/-- `DBSCAN_MIN_POINTS` from `src/src/localization.rs`. -/
def DBSCAN_MIN_POINTS : Nat := 1

/-- `region_query`: every index whose point lies within `epsilon` haversine
kilometers of the center, in index order (the center itself included, its
distance being 0). -/
noncomputable def regionQuery (points : List Midpoint) (centerIdx : Nat) (epsilon : ℝ) :
    List Nat :=
  (List.range points.length).filter (fun i =>
    decide (haversineKm (points.getD centerIdx (0, 0)).1 (points.getD centerIdx (0, 0)).2
      (points.getD i (0, 0)).1 (points.getD i (0, 0)).2 ≤ epsilon))

/-- The dedup push of `expand_cluster`:
`if !seeds.contains(&n) { seeds.push(n) }`. -/
def pushNew (seeds : List Nat) (n : Nat) : List Nat :=
  if n ∈ seeds then seeds else seeds ++ [n]

/-- Number of states not yet `Visited` (first component of the loop
variant of `expand_cluster`). -/
def countNonVisited (status : List PointStatus) : Nat :=
  (status.filter (fun s => !(s == PointStatus.visited))).length

/-- Number of `Visited` states. -/
def countVisited (status : List PointStatus) : Nat :=
  (status.filter (fun s => s == PointStatus.visited)).length

/-- Marking a not-yet-`Visited` entry `Visited` strictly shrinks the
non-`Visited` count: the variant justifying termination of
`expand_cluster`'s seed loop (an out-of-range read yields the `Visited`
default, so the hypothesis also puts `k` in range). -/
theorem countNonVisited_set_lt (l : List PointStatus) (k : Nat)
    (h : l.getD k PointStatus.visited ≠ PointStatus.visited) :
    countNonVisited (l.set k PointStatus.visited) < countNonVisited l := by
  induction l generalizing k with
  | nil => simp [List.getD] at h
  | cons s t ih =>
    cases k with
    | zero =>
      simp only [List.getD_cons_zero] at h
      simp only [List.set_cons_zero]
      have hs : (s == PointStatus.visited) = false := by
        cases s <;> simp_all
      simp [countNonVisited, List.filter, hs]
    | succ k =>
      simp only [List.getD_cons_succ] at h
      simp only [List.set_cons_succ]
      have := ih k h
      cases hsv : (s == PointStatus.visited) <;>
        simp [countNonVisited, List.filter, hsv] at this ⊢ <;> omega

/-- The seed extension of `expand_cluster`'s `Unvisited` arm: when the
neighborhood is dense enough, append its members not already queued. -/
noncomputable def extendSeeds (points : List Midpoint) (epsilon : ℝ)
    (minPoints curr : Nat) (seeds : List Nat) : List Nat :=
  if minPoints ≤ (regionQuery points curr epsilon).length then
    (regionQuery points curr epsilon).foldl pushNew seeds
  else seeds

/-- The `while i < seeds.len()` loop of `expand_cluster`
(`src/src/localization.rs`): skip the seed itself, turn `Noise` into a
border member, absorb `Unvisited` points (extending `seeds` with their
deduplicated neighbors when dense enough), skip `Visited` ones.  Clusters
hold point indices; the source holds references to the same points. -/
noncomputable def expandLoop (points : List Midpoint) (epsilon : ℝ) (minPoints seedIdx : Nat) :
    List PointStatus → List Nat → List Nat → Nat → List PointStatus × List Nat
  | status, cluster, seeds, i =>
    if h : i < seeds.length then
      if seeds.getD i 0 = seedIdx then
        expandLoop points epsilon minPoints seedIdx status cluster seeds (i + 1)
      else
        match hs : status.getD (seeds.getD i 0) PointStatus.visited with
        | .noise =>
          expandLoop points epsilon minPoints seedIdx
            (status.set (seeds.getD i 0) .visited) (cluster ++ [seeds.getD i 0]) seeds (i + 1)
        | .unvisited =>
          expandLoop points epsilon minPoints seedIdx
            (status.set (seeds.getD i 0) .visited) (cluster ++ [seeds.getD i 0])
            (extendSeeds points epsilon minPoints (seeds.getD i 0) seeds) (i + 1)
        | .visited =>
          expandLoop points epsilon minPoints seedIdx status cluster seeds (i + 1)
    else (status, cluster)
termination_by status _ seeds i => (countNonVisited status, seeds.length - i)
decreasing_by
  all_goals simp_wf
  · exact Prod.Lex.right _ (by omega)
  · refine Prod.Lex.left _ _ (countNonVisited_set_lt _ _ ?_)
    rw [← List.getD_eq_getElem?_getD, hs]
    decide
  · refine Prod.Lex.left _ _ (countNonVisited_set_lt _ _ ?_)
    rw [← List.getD_eq_getElem?_getD, hs]
    decide
  · exact Prod.Lex.right _ (by omega)

/-- The outer scan of `dbscan` (`src/src/localization.rs`): visit each
unvisited point, mark sparse ones `Noise`, otherwise grow a cluster seeded
with the point and its neighborhood. -/
noncomputable def dbscanLoop (points : List Midpoint) (epsilon : ℝ) (minPoints : Nat) :
    Nat → List PointStatus → List (List Nat) → List (List Nat)
  | i, status, clusters =>
    if i < points.length then
      if status.getD i PointStatus.visited ≠ PointStatus.unvisited then
        dbscanLoop points epsilon minPoints (i + 1) status clusters
      else if (regionQuery points i epsilon).length < minPoints then
        dbscanLoop points epsilon minPoints (i + 1)
          ((status.set i .visited).set i .noise) clusters
      else
        dbscanLoop points epsilon minPoints (i + 1)
          (expandLoop points epsilon minPoints i (status.set i .visited) [i]
            (regionQuery points i epsilon) 0).1
          (clusters ++ [(expandLoop points epsilon minPoints i (status.set i .visited) [i]
            (regionQuery points i epsilon) 0).2])
    else clusters
termination_by i _ _ => points.length - i
decreasing_by
  all_goals simp_wf
  all_goals omega

/-- `dbscan` from `src/src/localization.rs`. -/
noncomputable def dbscan (points : List Midpoint) (epsilon : ℝ) (minPoints : Nat) :
    List (List Nat) :=
  dbscanLoop points epsilon minPoints 0 (List.replicate points.length .unvisited) []

/-- The midpoints one decoded path contributes, one per
`Known → Unknown → Known` window in order (`path.windows(3)` with the
pattern match of `localize_unknowns`; the `len() < 3` early-continue is a
no-op).  Known indices are read with `getD` — the claims restrict them to
be in bounds, where the source's panicking index cannot fire. -/
noncomputable def pathMidpoints (knownNodes : List Repeater) :
    List PathNode → List (Nat × Midpoint)
  | PathNode.known a :: PathNode.unknown p :: PathNode.known b :: rest =>
    (p, (((knownNodes.getD a defaultRep).lat + (knownNodes.getD b defaultRep).lat) / 2,
         ((knownNodes.getD a defaultRep).lon + (knownNodes.getD b defaultRep).lon) / 2))
      :: pathMidpoints knownNodes (PathNode.unknown p :: PathNode.known b :: rest)
  | _ :: rest => pathMidpoints knownNodes rest
  | [] => []

/-- All `(prefix, midpoint)` observations over the paths, in path order. -/
noncomputable def allMidpoints (paths : List (List PathNode)) (knownNodes : List Repeater) :
    List (Nat × Midpoint) :=
  paths.foldl (fun acc path => acc ++ pathMidpoints knownNodes path) []

/-- The number of `Known → Unknown → Known` windows in one path. -/
def tripletCountPath : List PathNode → Nat
  | PathNode.known _ :: PathNode.unknown p :: PathNode.known b :: rest =>
    1 + tripletCountPath (PathNode.unknown p :: PathNode.known b :: rest)
  | _ :: rest => tripletCountPath rest
  | [] => 0

/-- The total number of `Known → Unknown → Known` triplets over all paths. -/
def tripletCount (paths : List (List PathNode)) : Nat :=
  (paths.map tripletCountPath).sum

/-- `InferredRepeater` from `src/src/localization.rs`. -/
structure InferredRepeater where
  pfx : String
  lat : ℝ
  lon : ℝ
  observation_count : Nat

/-- One lowercase hex digit. -/
def hexDigit (n : Nat) : Char :=
  if n < 10 then Char.ofNat ('0'.toNat + n) else Char.ofNat ('a'.toNat + n - 10)

/-- `format!("{:02x}", p)` for a byte. -/
def hexByteStr (p : Nat) : String := String.mk [hexDigit (p / 16 % 16), hexDigit (p % 16)]

/-- The output comparator of `localize_unknowns`: prefix string order, then
latitude (`partial_cmp` never sees a NaN in the real model). -/
noncomputable def irLE (a b : InferredRepeater) : Prop :=
  a.pfx < b.pfx ∨ (a.pfx = b.pfx ∧ a.lat ≤ b.lat)

noncomputable instance : DecidableRel irLE := fun a b => by
  unfold irLE
  infer_instance

/-- The per-prefix observation list: the vector
`observations_by_prefix[p]`, in insertion order. -/
noncomputable def obsFor (mids : List (Nat × Midpoint)) (p : Nat) : List Midpoint :=
  (mids.filter (fun e => e.1 == p)).map Prod.snd

/-- The `InferredRepeater` one cluster yields: centroid of the cluster's
midpoints and the cluster size. -/
noncomputable def clusterRep (p : Nat) (obsList : List Midpoint) (cluster : List Nat) :
    InferredRepeater :=
  { pfx := hexByteStr p
    lat := ((cluster.map (fun i => (obsList.getD i (0, 0)).1)).sum) / (cluster.length : ℝ)
    lon := ((cluster.map (fun i => (obsList.getD i (0, 0)).2)).sum) / (cluster.length : ℝ)
    observation_count := cluster.length }

/-- The `InferredRepeater`s one prefix contributes: DBSCAN clusters of its
observations, empty clusters skipped. -/
noncomputable def prefixBlock (mids : List (Nat × Midpoint)) (p : Nat) :
    List InferredRepeater :=
  (dbscan (obsFor mids p) DBSCAN_EPSILON_KM DBSCAN_MIN_POINTS).filterMap (fun cluster =>
    if cluster.isEmpty then none else some (clusterRep p (obsFor mids p) cluster))

/-- `localize_unknowns` from `src/src/localization.rs`: extract the
K→U→K midpoints, group them by prefix (groups enumerated in
first-occurrence order; the source's `HashMap` iteration order is
unspecified, and the final sort together with the order-invariant claims
absorbs the choice), cluster each group with DBSCAN (ε = 50 km,
minPts = 1), emit one `InferredRepeater` per non-empty cluster, and sort
by (prefix string, latitude) with a stable sort. -/
noncomputable def localizeUnknowns (paths : List (List PathNode))
    (knownNodes : List Repeater) : List InferredRepeater :=
  List.insertionSort irLE
    ((((allMidpoints paths knownNodes).map Prod.fst).dedup).foldl
      (fun acc p => acc ++ prefixBlock (allMidpoints paths knownNodes) p) [])

/-- In-bounds check for the `known_nodes[idx]` reads of
`localize_unknowns`. -/
def nodeInBounds (numKnown : Nat) : PathNode → Bool
  | .known a => a < numKnown
  | .unknown _ => true

/-- Total reported observation count. -/
def sumObsCount (l : List InferredRepeater) : Nat := (l.map (fun r => r.observation_count)).sum

/-! ## Helper lemmas -/

theorem swap2_perm (l : List (Nat × ℝ)) : (swap2 l).Perm l := by
  match l with
  | [] => exact List.Perm.refl _
  | [a] => exact List.Perm.refl _
  | a :: b :: rest => exact List.Perm.swap a b rest

theorem swapReorder_perm (t : Nat) (l : List (Nat × ℝ)) : (swapReorder t l).Perm l := by
  unfold swapReorder
  split
  · exact swap2_perm l
  · exact List.Perm.refl _

theorem perm_pair {α : Type} {x y : α} {l : List α} (h : l.Perm [x, y]) :
    l = [x, y] ∨ l = [y, x] := by
  have hlen : l.length = 2 := by simpa using h.length_eq
  match l, hlen with
  | [a, b], _ =>
    have hmem : a ∈ [x, y] := h.mem_iff.1 (by simp)
    rcases List.mem_pair.1 hmem with ha | ha
    · subst ha
      have : [b].Perm [y] := (List.perm_cons a).1 h
      have hb : b = y := by simpa using this
      subst hb
      exact Or.inl rfl
    · right
      have h' : ([a, b] : List α).Perm [y, x] := h.trans (List.Perm.swap y x [])
      rw [ha] at h'
      have hb : b = x := by simpa using (List.perm_cons y).1 h'
      rw [ha, hb]

theorem atan2_sin_cos {θ : ℝ} (h0 : -(Real.pi / 2) < θ) (h1 : θ < Real.pi / 2) :
    atan2 (Real.sin θ) (Real.cos θ) = θ := by
  have hcos : 0 < Real.cos θ := Real.cos_pos_of_mem_Ioo ⟨h0, h1⟩
  unfold atan2
  rw [if_pos hcos, ← Real.tan_eq_sin_div_cos, Real.arctan_tan h0 h1]

/-- On the equator, the haversine distance over a longitude difference of
`x` degrees (`0 ≤ x < 180`) is the arc `6371·x·π/180`. -/
theorem haversineKm_equator (x : ℝ) (hx0 : 0 ≤ x) (hx1 : x < 180) :
    haversineKm 0 0 0 x = 6371 * (x * (Real.pi / 180)) := by
  have hpi := Real.pi_pos
  have hθ0 : 0 ≤ x * (Real.pi / 180) / 2 := by positivity
  have hθlt : x * (Real.pi / 180) / 2 < Real.pi / 2 := by
    have h1 : x * (Real.pi / 180) < 180 * (Real.pi / 180) :=
      mul_lt_mul_of_pos_right hx1 (by positivity)
    nlinarith
  have hsin : 0 ≤ Real.sin (x * (Real.pi / 180) / 2) :=
    Real.sin_nonneg_of_nonneg_of_le_pi hθ0 (by linarith)
  have hcos : 0 ≤ Real.cos (x * (Real.pi / 180) / 2) :=
    Real.cos_nonneg_of_mem_Icc ⟨by linarith, le_of_lt hθlt⟩
  simp only [haversineKm]
  norm_num
  rw [show (x * (Real.pi / 180)) / 2 = x * (Real.pi / 180) / 2 by ring]
  rw [Real.sqrt_sq hsin]
  have hc2 : 1 - Real.sin (x * (Real.pi / 180) / 2) ^ 2 =
      Real.cos (x * (Real.pi / 180) / 2) ^ 2 := by
    nlinarith [Real.sin_sq_add_cos_sq (x * (Real.pi / 180) / 2)]
  rw [hc2, Real.sqrt_sq hcos, atan2_sin_cos (by linarith) hθlt]
  ring

theorem forward_ok_bps_length (g : NetworkGraph) (reorder : Reorder) :
    ∀ (obsRest : List Nat) (t : Nat) (cur : CostMap) (bps : List StepMap) res,
      forward g reorder obsRest t cur bps = .ok res →
      res.2.length = bps.length + obsRest.length := by
  intro obsRest
  induction obsRest with
  | nil =>
    intro t cur bps res h
    simp only [forward] at h
    cases h
    simp
  | cons obs rest ih =>
    intro t cur bps res h
    simp only [forward] at h
    by_cases hm : (stepAll g obs cur).isEmpty
    · rw [if_pos hm] at h; cases h
    · rw [if_neg hm] at h
      have := ih (t + 1) (reorder t (stripBp (stepAll g obs cur))) (stepAll g obs cur :: bps)
        res h
      simp only [List.length_cons] at this ⊢
      omega

theorem backtrack_ok_length :
    ∀ (bps : List StepMap) (idx : Nat) (l : List Nat),
      backtrack bps idx = .ok l → l.length = bps.length + 1 := by
  intro bps
  induction bps with
  | nil =>
    intro idx l h
    simp only [backtrack] at h
    cases h
    simp
  | cons b rest ih =>
    intro idx l h
    simp only [backtrack] at h
    split at h
    next cp hlk =>
      split at h
      next l' hbt =>
        cases h
        have := ih cp.2 l' hbt
        simp [this]
      next e hbt => cases h
    next hlk => cases h

theorem cmp_uu_not_lt_start_ku :
    ¬ (0 + COST_TRANSITION_UNKNOWN_TO_UNKNOWN <
       COST_START_KNOWN + COST_TRANSITION_KNOWN_TO_UNKNOWN) := by
  unfold COST_TRANSITION_UNKNOWN_TO_UNKNOWN COST_START_KNOWN COST_TRANSITION_KNOWN_TO_UNKNOWN
  norm_num

theorem cmp_start_ku_lt_uu :
    COST_START_KNOWN + COST_TRANSITION_KNOWN_TO_UNKNOWN <
    0 + COST_TRANSITION_UNKNOWN_TO_UNKNOWN := by
  unfold COST_TRANSITION_UNKNOWN_TO_UNKNOWN COST_START_KNOWN COST_TRANSITION_KNOWN_TO_UNKNOWN
  norm_num

theorem cmp_start_ku_lt_uk :
    COST_START_KNOWN + COST_TRANSITION_KNOWN_TO_UNKNOWN <
    0 + COST_TRANSITION_UNKNOWN_TO_KNOWN := by
  unfold COST_TRANSITION_UNKNOWN_TO_KNOWN COST_START_KNOWN COST_TRANSITION_KNOWN_TO_UNKNOWN
  norm_num

theorem cmp_start_ku_irrefl :
    ¬ (COST_START_KNOWN + COST_TRANSITION_KNOWN_TO_UNKNOWN <
       COST_START_KNOWN + COST_TRANSITION_KNOWN_TO_UNKNOWN) :=
  lt_irrefl _

theorem repA_repB_not_inEnvelope : ¬ inEnvelope repA repB := by
  unfold inEnvelope searchRadiusDeg repA repB
  rintro ⟨h1, h2, h3, h4⟩
  norm_num at h2

theorem repB_repA_not_inEnvelope : ¬ inEnvelope repB repA := by
  unfold inEnvelope searchRadiusDeg repA repB
  rintro ⟨h1, h2, h3, h4⟩
  norm_num at h1

theorem repA_repA2_not_inEnvelope : ¬ inEnvelope repA repA2 := by
  unfold inEnvelope searchRadiusDeg repA repA2
  rintro ⟨h1, h2, h3, h4⟩
  norm_num at h2

theorem repA2_repA_not_inEnvelope : ¬ inEnvelope repA2 repA := by
  unfold inEnvelope searchRadiusDeg repA repA2
  rintro ⟨h1, h2, h3, h4⟩
  norm_num at h1

theorem s2_adjacency : s2Graph.adjacency = [[], []] := by
  have henum : s2Nodes.enum = [(0, repA), (1, repB)] := rfl
  have row0 : mkAdjRow s2Nodes none 0 repA = [] := by
    unfold mkAdjRow
    rw [henum]
    simp [repA_repB_not_inEnvelope]
  have row1 : mkAdjRow s2Nodes none 1 repB = [] := by
    unfold mkAdjRow
    rw [henum]
    simp [repB_repA_not_inEnvelope]
  simp only [s2Graph, mkGraph, henum, List.map_cons, List.map_nil]
  rw [row0, row1]

theorem tie_adjacency : tieGraph.adjacency = [[], []] := by
  have henum : tieNodes.enum = [(0, repA), (1, repA2)] := rfl
  have row0 : mkAdjRow tieNodes none 0 repA = [] := by
    unfold mkAdjRow
    rw [henum]
    simp [repA_repA2_not_inEnvelope]
  have row1 : mkAdjRow tieNodes none 1 repA2 = [] := by
    unfold mkAdjRow
    rw [henum]
    simp [repA2_repA_not_inEnvelope]
  simp only [tieGraph, mkGraph, henum, List.map_cons, List.map_nil]
  rw [row0, row1]

theorem flat_data_getD_zero (i : Nat) : ([(0 : ℝ), 0, 0, 0].getD i 0) = 0 := by
  rcases i with _ | _ | _ | _ | n <;> simp [List.getD]

theorem flatTile_getElevation (lat lon : ℝ) : flatTile.getElevation lat lon = 0 := by
  unfold TerrainTile.getElevation
  split
  · rfl
  · simp only [flatTile, flat_data_getD_zero]
    ring

theorem flatTile_contains {lat lon : ℝ} (h1 : -1 ≤ lat) (h2 : lat ≤ 1)
    (h3 : -1 ≤ lon) (h4 : lon ≤ 2) : flatTile.containsP lat lon := by
  unfold TerrainTile.containsP flatTile
  exact ⟨h1, h2, h3, h4⟩

theorem flatTerrain_getElevation (lat lon : ℝ) (h : flatTile.containsP lat lon) :
    mapGetElevation flatTerrain lat lon = some 0 := by
  simp only [flatTerrain, mapGetElevation, if_pos h, flatTile_getElevation]

/-- On the 166.8 km equatorial segment from `(0,0)` to `(0,1.5)` over flat
sea-level terrain, the interior scan of `check_line_of_sight` reports the
ray blocked: near the midpoint the earth-curvature rise far exceeds the
30 m antennas.  `k` is fuel bounding `steps / 2 - i`. -/
theorem losLoop_c3_blocked (steps : Nat) (hsteps : 2 ≤ steps) :
    ∀ k i, 1 ≤ i → i ≤ steps / 2 → steps / 2 - i ≤ k →
      losLoop flatTerrain 0 0 0 (3/2) (6371 * Real.pi / 120) 30 30 steps i = .ok false := by
  have hpi := Real.pi_gt_three
  have hstepsR : (0 : ℝ) < (steps : ℝ) := by positivity
  -- shared facts about the sample fraction t = i / steps for 1 ≤ i ≤ steps
  have hsample : ∀ i : Nat, i ≤ steps →
      mapGetElevation flatTerrain (0 + (0 - 0) * ((i : ℝ) / (steps : ℝ)))
        (0 + (3 / 2 - 0) * ((i : ℝ) / (steps : ℝ))) = some 0 := by
    intro i hi
    have ht0 : (0 : ℝ) ≤ (i : ℝ) / (steps : ℝ) := by positivity
    have ht1 : (i : ℝ) / (steps : ℝ) ≤ 1 := by
      rw [div_le_one hstepsR]
      exact_mod_cast hi
    exact flatTerrain_getElevation _ _ (flatTile_contains (by nlinarith) (by nlinarith)
      (by nlinarith) (by nlinarith))
  -- the ray is blocked at the half-way sample
  have htrip : ∀ i : Nat, steps ≤ 4 * i → 2 * i ≤ steps →
      30 * (1 - (i : ℝ) / (steps : ℝ)) + 30 * ((i : ℝ) / (steps : ℝ)) <
      0 + (6371 * Real.pi / 120 * ((i : ℝ) / (steps : ℝ)) * 1000) *
        (6371 * Real.pi / 120 * (1 - (i : ℝ) / (steps : ℝ)) * 1000) /
        (2 * (6371 * 1000)) := by
    intro i h4 h2'
    set t : ℝ := (i : ℝ) / (steps : ℝ) with htdef
    have ht14 : (1 : ℝ) / 4 ≤ t := by
      rw [htdef, le_div_iff hstepsR]
      have : (steps : ℝ) ≤ 4 * (i : ℝ) := by exact_mod_cast h4
      linarith
    have ht12 : t ≤ 1 / 2 := by
      rw [htdef, div_le_iff hstepsR]
      have : 2 * (i : ℝ) ≤ (steps : ℝ) := by exact_mod_cast h2'
      linarith
    rw [zero_add, lt_div_iff (by norm_num : (0 : ℝ) < 2 * (6371 * 1000))]
    have h34 : (3 : ℝ) / 16 ≤ t * (1 - t) := by
      nlinarith [mul_nonneg (sub_nonneg.2 ht14)
        (sub_nonneg.2 (ht12.trans (by norm_num : (1 : ℝ) / 2 ≤ 3 / 4)))]
    have hA : (159275 : ℝ) ≤ 6371 * Real.pi / 120 * 1000 := by nlinarith
    have hA2 : (159275 : ℝ) ^ 2 * (3 / 16) ≤
        (6371 * Real.pi / 120 * 1000) ^ 2 * (t * (1 - t)) := by
      have hsq : (159275 : ℝ) ^ 2 ≤ (6371 * Real.pi / 120 * 1000) ^ 2 := by nlinarith
      exact mul_le_mul hsq h34 (by norm_num) (by positivity)
    nlinarith [hA2]
  intro k
  induction k with
  | zero =>
    intro i h1 h2 h3
    have hi : i = steps / 2 := by omega
    subst hi
    rw [losLoop, if_pos (by omega : steps / 2 < steps)]
    simp only [hsample (steps / 2) (by omega)]
    rw [if_pos (htrip (steps / 2) (by omega) (by omega))]
  | succ k ih =>
    intro i h1 h2 h3
    rw [losLoop, if_pos (by omega : i < steps)]
    simp only [hsample i (by omega)]
    by_cases htr : 30 * (1 - (i : ℝ) / (steps : ℝ)) + 30 * ((i : ℝ) / (steps : ℝ)) <
        0 + (6371 * Real.pi / 120 * ((i : ℝ) / (steps : ℝ)) * 1000) *
          (6371 * Real.pi / 120 * (1 - (i : ℝ) / (steps : ℝ)) * 1000) /
          (2 * (6371 * 1000))
    · rw [if_pos htr]
    · rw [if_neg htr]
      have hne : i ≠ steps / 2 := by
        intro he
        exact htr (he ▸ htrip (steps / 2) (by omega) (by omega))
      exact ih (i + 1) (by omega) (by omega) (by omega)

theorem cmp_uu_not_lt_ku :
    ¬ (COST_TRANSITION_UNKNOWN_TO_UNKNOWN <
       COST_START_KNOWN + COST_TRANSITION_KNOWN_TO_UNKNOWN) := by
  unfold COST_TRANSITION_UNKNOWN_TO_UNKNOWN COST_START_KNOWN COST_TRANSITION_KNOWN_TO_UNKNOWN
  norm_num

theorem cmp_ku_le_uu :
    COST_START_KNOWN + COST_TRANSITION_KNOWN_TO_UNKNOWN ≤
    COST_TRANSITION_UNKNOWN_TO_UNKNOWN := by
  unfold COST_TRANSITION_UNKNOWN_TO_UNKNOWN COST_START_KNOWN COST_TRANSITION_KNOWN_TO_UNKNOWN
  norm_num

theorem cmp_ku_lt_uu :
    COST_START_KNOWN + COST_TRANSITION_KNOWN_TO_UNKNOWN <
    COST_TRANSITION_UNKNOWN_TO_UNKNOWN := by
  unfold COST_TRANSITION_UNKNOWN_TO_UNKNOWN COST_START_KNOWN COST_TRANSITION_KNOWN_TO_UNKNOWN
  norm_num

theorem cmp_ku_lt_uk :
    COST_START_KNOWN + COST_TRANSITION_KNOWN_TO_UNKNOWN <
    COST_TRANSITION_UNKNOWN_TO_KNOWN := by
  unfold COST_TRANSITION_UNKNOWN_TO_KNOWN COST_START_KNOWN COST_TRANSITION_KNOWN_TO_UNKNOWN
  norm_num

theorem s2_stepA : stepAll s2Graph 176 [(0, COST_START_KNOWN), (2, 0)] =
    [(2, COST_START_KNOWN + COST_TRANSITION_KNOWN_TO_UNKNOWN, 0),
     (1, COST_TRANSITION_UNKNOWN_TO_KNOWN, 2)] := by
  have h2 : s2Graph.numNodes = 2 := rfl
  have hb2 : s2Graph.nodesByPfx 176 = [1] := rfl
  unfold stepAll transFrom
  simp only [List.foldl, h2, hb2, s2_adjacency]
  norm_num [updateMin, alookup, cmp_uu_not_lt_ku, cmp_ku_le_uu]

theorem s2_stepB : stepAll s2Graph 176 [(2, 0), (0, COST_START_KNOWN)] =
    [(1, COST_TRANSITION_UNKNOWN_TO_KNOWN, 2),
     (2, COST_START_KNOWN + COST_TRANSITION_KNOWN_TO_UNKNOWN, 0)] := by
  have h2 : s2Graph.numNodes = 2 := rfl
  have hb2 : s2Graph.nodesByPfx 176 = [1] := rfl
  unfold stepAll transFrom
  simp only [List.foldl, h2, hb2, s2_adjacency]
  norm_num [updateMin, alookup, cmp_ku_lt_uu]

theorem s2_selA : selectBest [(2, COST_START_KNOWN + COST_TRANSITION_KNOWN_TO_UNKNOWN),
    (1, COST_TRANSITION_UNKNOWN_TO_KNOWN)] = some 2 := by
  unfold selectBest sortedKeys
  norm_num [List.insertionSort, List.orderedInsert, selStep, alookup, cmp_ku_lt_uk]

theorem s2_selB : selectBest [(1, COST_TRANSITION_UNKNOWN_TO_KNOWN),
    (2, COST_START_KNOWN + COST_TRANSITION_KNOWN_TO_UNKNOWN)] = some 2 := by
  unfold selectBest sortedKeys
  norm_num [List.insertionSort, List.orderedInsert, selStep, alookup, cmp_ku_lt_uk]

theorem s2_btA : backtrack [[(2, COST_START_KNOWN + COST_TRANSITION_KNOWN_TO_UNKNOWN, 0),
    (1, COST_TRANSITION_UNKNOWN_TO_KNOWN, 2)]] 2 = .ok [2, 0] := by
  simp [backtrack, alookup]

theorem s2_btB : backtrack [[(1, COST_TRANSITION_UNKNOWN_TO_KNOWN, 2),
    (2, COST_START_KNOWN + COST_TRANSITION_KNOWN_TO_UNKNOWN, 0)]] 2 = .ok [2, 0] := by
  simp [backtrack, alookup]

/-- On the S2 graph, `decode_path [0xA0, 0xB0]` returns
`[Known 0, Unknown 0xB0]` under every iteration-order schedule that
permutes the maps: the `-0.1` start bonus makes the grounded start beat the
`Known 1` ending at the final tie-break. -/
theorem decode_s2 (reorder : Reorder) (hperm : ∀ t l, (reorder t l).Perm l) :
    decodePath s2Graph reorder [160, 176] =
      .ok [PathNode.known 0, PathNode.unknown 176] := by
  have hinit : initMap s2Graph 160 = [(0, COST_START_KNOWN), (2, 0)] := rfl
  have hpath : ∀ m : StepMap,
      backtrack [m] 2 = .ok [2, 0] →
      (match backtrack [m] 2 with
        | .error e => (.error e : Except String (List PathNode))
        | .ok idxs => .ok (idxs.reverse.enum.map
            (fun p : Nat × Nat => toPathNode s2Graph [160, 176] p.2 p.1))) =
      .ok [PathNode.known 0, PathNode.unknown 176] := by
    intro m hbt
    rw [hbt]
    have hn : s2Graph.numNodes = 2 := rfl
    simp only [toPathNode, hn]
    exact congrArg Except.ok (by decide)
  have hp0 := hperm 0 (initMap s2Graph 160)
  rw [hinit] at hp0
  simp only [decodePath, forward, hinit]
  rcases perm_pair hp0 with hc0 | hc0 <;> rw [hc0]
  · rw [s2_stepA]
    simp only [List.isEmpty_cons, Bool.false_eq_true, if_false, forward, stripBp, List.map]
    have hp1 := hperm 1 [(2, COST_START_KNOWN + COST_TRANSITION_KNOWN_TO_UNKNOWN),
      (1, COST_TRANSITION_UNKNOWN_TO_KNOWN)]
    rcases perm_pair hp1 with hc1 | hc1 <;> rw [hc1]
    · rw [s2_selA]
      exact hpath _ s2_btA
    · rw [s2_selB]
      exact hpath _ s2_btA
  · rw [s2_stepB]
    simp only [List.isEmpty_cons, Bool.false_eq_true, if_false, forward, stripBp, List.map]
    have hp1 := hperm 1 [(1, COST_TRANSITION_UNKNOWN_TO_KNOWN),
      (2, COST_START_KNOWN + COST_TRANSITION_KNOWN_TO_UNKNOWN)]
    rcases perm_pair hp1 with hc1 | hc1 <;> rw [hc1]
    · rw [s2_selB]
      exact hpath _ s2_btB
    · rw [s2_selA]
      exact hpath _ s2_btB

/-- Decoding the tie scenario with the insertion-order schedule: the first
Known start wins the forward-pass tie for the Unknown state's back-pointer. -/
theorem tie_decode_id :
    decodePath tieGraph idReorder [160, 176] =
      .ok [PathNode.known 0, PathNode.unknown 176] := by
  have hinit : initMap tieGraph 160 =
      [(0, COST_START_KNOWN), (1, COST_START_KNOWN), (2, 0)] := rfl
  have hstep : stepAll tieGraph 176 [(0, COST_START_KNOWN), (1, COST_START_KNOWN), (2, 0)] =
      [(2, COST_START_KNOWN + COST_TRANSITION_KNOWN_TO_UNKNOWN, 0)] := by
    have h2 : tieGraph.numNodes = 2 := rfl
    have hb2 : tieGraph.nodesByPfx 176 = [] := rfl
    unfold stepAll transFrom
    simp only [List.foldl, h2, hb2, tie_adjacency]
    norm_num [updateMin, alookup, cmp_uu_not_lt_ku, cmp_ku_le_uu]
  have hsel : selectBest [(2, COST_START_KNOWN + COST_TRANSITION_KNOWN_TO_UNKNOWN)] =
      some 2 := by
    unfold selectBest sortedKeys
    norm_num [List.insertionSort, List.orderedInsert, selStep, alookup]
  have hbt : backtrack [[(2, COST_START_KNOWN + COST_TRANSITION_KNOWN_TO_UNKNOWN, 0)]] 2 =
      .ok [2, 0] := by
    simp [backtrack, alookup]
  simp only [decodePath, forward, idReorder, hinit]
  rw [hstep]
  simp only [List.isEmpty_cons, Bool.false_eq_true, if_false, forward, stripBp, List.map]
  rw [hsel]
  simp only [hbt]
  have hn : tieGraph.numNodes = 2 := rfl
  simp only [toPathNode, hn]
  exact congrArg Except.ok (by decide)

/-- Decoding the tie scenario with the swapped iteration order: now the
second Known start wins the same tie, and the decoded path differs. -/
theorem tie_decode_swap :
    decodePath tieGraph swapReorder [160, 176] =
      .ok [PathNode.known 1, PathNode.unknown 176] := by
  have hinit : swapReorder 0 (initMap tieGraph 160) =
      [(1, COST_START_KNOWN), (0, COST_START_KNOWN), (2, 0)] := rfl
  have hstep : stepAll tieGraph 176 [(1, COST_START_KNOWN), (0, COST_START_KNOWN), (2, 0)] =
      [(2, COST_START_KNOWN + COST_TRANSITION_KNOWN_TO_UNKNOWN, 1)] := by
    have h2 : tieGraph.numNodes = 2 := rfl
    have hb2 : tieGraph.nodesByPfx 176 = [] := rfl
    unfold stepAll transFrom
    simp only [List.foldl, h2, hb2, tie_adjacency]
    norm_num [updateMin, alookup, cmp_uu_not_lt_ku, cmp_ku_le_uu]
  have hsel : selectBest [(2, COST_START_KNOWN + COST_TRANSITION_KNOWN_TO_UNKNOWN)] =
      some 2 := by
    unfold selectBest sortedKeys
    norm_num [List.insertionSort, List.orderedInsert, selStep, alookup]
  have hbt : backtrack [[(2, COST_START_KNOWN + COST_TRANSITION_KNOWN_TO_UNKNOWN, 1)]] 2 =
      .ok [2, 1] := by
    simp [backtrack, alookup]
  simp only [decodePath, forward, hinit]
  rw [hstep]
  simp only [List.isEmpty_cons, Bool.false_eq_true, if_false, forward, stripBp, List.map,
    swapReorder]
  norm_num
  rw [hsel]
  simp only [hbt]
  have hn : tieGraph.numNodes = 2 := rfl
  simp only [toPathNode, hn]
  exact congrArg Except.ok (by decide)

theorem linkClear_0_10 : linkCostClear 0 0 0 10 = none := by
  have hd : haversineKm 0 0 0 10 = 6371 * Real.pi / 18 := by
    rw [haversineKm_equator 10 (by norm_num) (by norm_num)]
    ring
  rw [linkCostClear]
  simp only [hd]
  rw [if_pos (by nlinarith [Real.pi_gt_three])]

theorem linkCostF_0_10 : linkCostF 0 0 0 10 none = none := by
  simp [linkCostF, linkCost, linkClear_0_10]

theorem vit_s2_init : vitInitRow s2Nodes 160 =
    [⟨some 0, none⟩, ⟨none, none⟩, ⟨some 0, none⟩] := rfl

theorem vit_s2_row1 : vitStep s2Nodes none (vitInitRow s2Nodes 160) 176 =
    [⟨none, none⟩, ⟨some UNKNOWN_LINK_COST, some 2⟩,
     ⟨some UNKNOWN_LINK_COST, some 0⟩] := by
  have hpA : repA.pfxByte = 160 := rfl
  have hpB : repB.pfxByte = 176 := rfl
  have hAB : linkCostF repA.lat repA.lon repB.lat repB.lon none = none := linkCostF_0_10
  unfold vitStep vitCell
  rw [vit_s2_init]
  rw [show List.range (s2Nodes.length + 1) = [0, 1, 2] from rfl]
  norm_num [s2Nodes, List.getD_cons_zero, List.getD_cons_succ, hpA, hpB, hAB,
    lt_self_iff_false]

theorem vit_s2_decode : vitDecodePath s2Nodes [160, 176] none =
    .ok [PathNode.unknown 160, PathNode.known 1] := by
  have hsel : vitSelect (s2Nodes.length + 1)
      [⟨none, none⟩, ⟨some UNKNOWN_LINK_COST, some 2⟩,
       ⟨some UNKNOWN_LINK_COST, some 0⟩] = some 1 := by
    unfold vitSelect
    rw [show List.range (s2Nodes.length + 1) = [0, 1, 2] from rfl]
    norm_num [List.getD_cons_zero, List.getD_cons_succ, lt_self_iff_false]
  have hbt : vitBacktrack
      [[⟨none, none⟩, ⟨some UNKNOWN_LINK_COST, some 2⟩,
        ⟨some UNKNOWN_LINK_COST, some 0⟩], vitInitRow s2Nodes 160] 1 = .ok [1, 2] := by
    simp [vitBacktrack, List.getD]
  simp only [vitDecodePath, vitForward, List.headD]
  rw [vit_s2_row1]
  simp only [List.any_cons, List.any_nil, Option.isSome_some, Option.isSome_none,
    Bool.false_or, Bool.or_false, Bool.or_true, if_true]
  simp only [vitForward, hsel, hbt]
  exact congrArg Except.ok (by decide)

theorem alookup_isSome_of_mem {β : Type} (m : List (Nat × β)) (k : Nat)
    (h : k ∈ m.map Prod.fst) : ∃ v, alookup k m = some v := by
  induction m with
  | nil => simp at h
  | cons e rest ih =>
    by_cases he : e.1 = k
    · exact ⟨e.2, by simp [alookup, he]⟩
    · simp only [List.map_cons, List.mem_cons] at h
      rcases h with h | h
      · exact absurd h.symm he
      · rcases ih h with ⟨v, hv⟩
        exact ⟨v, by simp [alookup, he, hv]⟩

theorem alookup_mem {β : Type} {m : List (Nat × β)} {k : Nat} {v : β}
    (h : alookup k m = some v) : (k, v) ∈ m := by
  induction m with
  | nil => simp [alookup] at h
  | cons e rest ih =>
    by_cases he : e.1 = k
    · simp only [alookup, he, if_pos] at h
      have : e = (k, v) := by
        rw [Prod.ext_iff]
        exact ⟨he, by injection h⟩
      rw [← this]
      exact List.mem_cons_self _ _
    · simp only [alookup, he, if_neg, if_false] at h
      exact List.mem_cons_of_mem e (ih h)

theorem replace_keys (m : StepMap) (k : Nat) (c : ℝ) (p : Nat) :
    (m.map (fun e => if e.1 = k then (k, c, p) else e)).map Prod.fst =
    m.map Prod.fst := by
  rw [List.map_map]
  apply List.map_congr_left
  intro e _
  by_cases hek : e.1 = k <;> simp [hek]

theorem updateMin_keys_mono (m : StepMap) (k : Nat) (c : ℝ) (p : Nat) :
    ∀ x ∈ m.map Prod.fst, x ∈ (updateMin m k c p).map Prod.fst := by
  intro x hx
  unfold updateMin
  split
  · simp only [List.map_append]
    exact List.mem_append_left _ hx
  · split
    · rw [replace_keys]
      exact hx
    · exact hx

theorem updateMin_key_mem (m : StepMap) (k : Nat) (c : ℝ) (p : Nat) :
    k ∈ (updateMin m k c p).map Prod.fst := by
  unfold updateMin
  split
  · simp
  next cp hcp =>
    split
    · rw [replace_keys]
      exact List.mem_map.2 ⟨(k, cp), alookup_mem hcp, rfl⟩
    · exact List.mem_map.2 ⟨(k, cp), alookup_mem hcp, rfl⟩

theorem updateMin_bp {S : List Nat} {m : StepMap} (k : Nat) (c : ℝ) {p : Nat}
    (hm : ∀ e ∈ m, e.2.2 ∈ S) (hp : p ∈ S) :
    ∀ e ∈ updateMin m k c p, e.2.2 ∈ S := by
  intro e he
  unfold updateMin at he
  split at he
  · rcases List.mem_append.1 he with h | h
    · exact hm e h
    · simp only [List.mem_singleton] at h
      rw [h]
      exact hp
  · split at he
    · rcases List.mem_map.1 he with ⟨e0, he0, rfl⟩
      by_cases h0 : e0.1 = k
      · simp only [h0, if_pos]
        exact hp
      · simp only [h0, if_neg, if_false]
        exact hm e0 he0
    · exact hm e he

theorem foldl_keys_mono {β : Type} (F : StepMap → β → StepMap)
    (hF : ∀ m b, ∀ x ∈ m.map Prod.fst, x ∈ (F m b).map Prod.fst) :
    ∀ (l : List β) (m : StepMap), ∀ x ∈ m.map Prod.fst, x ∈ (l.foldl F m).map Prod.fst := by
  intro l
  induction l with
  | nil => intro m x hx; simpa using hx
  | cons b rest ih => intro m x hx; exact ih (F m b) x (hF m b x hx)

theorem transFrom_keys_mono (g : NetworkGraph) (obs : Nat) (m : StepMap) (pc : Nat × ℝ) :
    ∀ x ∈ m.map Prod.fst, x ∈ (transFrom g obs m pc).map Prod.fst := by
  intro x hx
  unfold transFrom
  split
  · apply updateMin_keys_mono
    refine foldl_keys_mono _ ?_ _ m x hx
    intro m0 e y hy
    split
    · exact updateMin_keys_mono _ _ _ _ y hy
    · exact hy
  · apply updateMin_keys_mono
    refine foldl_keys_mono _ ?_ _ m x hx
    intro m0 j y hy
    exact updateMin_keys_mono _ _ _ _ y hy

theorem transFrom_unknown_mem (g : NetworkGraph) (obs : Nat) (m : StepMap) (pc : Nat × ℝ) :
    g.numNodes ∈ (transFrom g obs m pc).map Prod.fst := by
  unfold transFrom
  split
  · exact updateMin_key_mem _ _ _ _
  · exact updateMin_key_mem _ _ _ _

theorem foldl_bp {β : Type} {S : List Nat} (F : StepMap → β → StepMap)
    (hF : ∀ m b, (∀ e ∈ m, e.2.2 ∈ S) → ∀ e ∈ F m b, e.2.2 ∈ S) :
    ∀ (l : List β) (m : StepMap), (∀ e ∈ m, e.2.2 ∈ S) →
      ∀ e ∈ l.foldl F m, e.2.2 ∈ S := by
  intro l
  induction l with
  | nil => intro m hm; simpa using hm
  | cons b rest ih => intro m hm; exact ih (F m b) (hF m b hm)

theorem transFrom_bp (g : NetworkGraph) (obs : Nat) {S : List Nat} {m : StepMap}
    {pc : Nat × ℝ} (hm : ∀ e ∈ m, e.2.2 ∈ S) (hp : pc.1 ∈ S) :
    ∀ e ∈ transFrom g obs m pc, e.2.2 ∈ S := by
  unfold transFrom
  split
  · refine updateMin_bp _ _ ?_ hp
    refine foldl_bp _ ?_ _ m hm
    intro m0 e hm0 e' he'
    revert he'
    split
    · exact updateMin_bp _ _ hm0 hp _
    · exact hm0 e'
  · refine updateMin_bp _ _ ?_ hp
    refine foldl_bp _ ?_ _ m hm
    intro m0 j hm0
    exact updateMin_bp _ _ hm0 hp

theorem stepAll_unknown_mem (g : NetworkGraph) (obs : Nat) {cur : CostMap}
    (h : cur ≠ []) : g.numNodes ∈ (stepAll g obs cur).map Prod.fst := by
  unfold stepAll
  match cur, h with
  | pc :: rest, _ =>
    rw [List.foldl_cons]
    exact foldl_keys_mono _ (fun m b => transFrom_keys_mono g obs m b) rest
      (transFrom g obs [] pc) _ (transFrom_unknown_mem g obs [] pc)

theorem stepAll_bp (g : NetworkGraph) (obs : Nat) {S : List Nat} {cur : CostMap}
    (hcur : ∀ pc ∈ cur, pc.1 ∈ S) : ∀ e ∈ stepAll g obs cur, e.2.2 ∈ S := by
  unfold stepAll
  have key : ∀ (l : CostMap) (m : StepMap), (∀ pc ∈ l, pc.1 ∈ S) →
      (∀ e ∈ m, e.2.2 ∈ S) → ∀ e ∈ l.foldl (transFrom g obs) m, e.2.2 ∈ S := by
    intro l
    induction l with
    | nil => intro m _ hm; simpa using hm
    | cons pc rest ih =>
      intro m hl hm
      rw [List.foldl_cons]
      refine ih (transFrom g obs m pc) (fun x hx => hl x (List.mem_cons_of_mem _ hx)) ?_
      exact transFrom_bp g obs hm (hl pc (List.mem_cons_self _ _))
  exact key cur [] hcur (by simp)

theorem selStep_fold_isSome (cur : CostMap) :
    ∀ (l : List Nat) (acc : Option (Nat × ℝ)), (acc.isSome ∨ l ≠ []) →
      (l.foldl (selStep cur) acc).isSome := by
  intro l
  induction l with
  | nil =>
    intro acc h
    rcases h with h | h
    · simpa using h
    · simp at h
  | cons k rest ih =>
    intro acc h
    rw [List.foldl_cons]
    apply ih
    left
    match acc with
    | none => rfl
    | some bc =>
      show ((if (alookup k cur).getD 0 < bc.2 then some (k, (alookup k cur).getD 0)
        else some bc : Option (Nat × ℝ))).isSome = true
      split <;> rfl

theorem selStep_fold_mem (cur : CostMap) {S : List Nat} :
    ∀ (l : List Nat), (∀ k ∈ l, k ∈ S) →
      ∀ (acc : Option (Nat × ℝ)), (∀ q, acc = some q → q.1 ∈ S) →
      ∀ q, l.foldl (selStep cur) acc = some q → q.1 ∈ S := by
  intro l
  induction l with
  | nil => intro _ acc hacc q hq; exact hacc q (by simpa using hq)
  | cons k rest ih =>
    intro hl acc hacc q hq
    rw [List.foldl_cons] at hq
    refine ih (fun x hx => hl x (List.mem_cons_of_mem _ hx)) (selStep cur acc k) ?_ q hq
    intro q' hq'
    match acc, hq' with
    | none, hq' =>
      have h2 : selStep cur none k = some (k, (alookup k cur).getD 0) := rfl
      rw [h2] at hq'
      injection hq' with hq''
      rw [← hq'']
      exact hl k (List.mem_cons_self _ _)
    | some bc, hq' =>
      by_cases hcmp : (alookup k cur).getD 0 < bc.2
      · have h2 : selStep cur (some bc) k = some (k, (alookup k cur).getD 0) := by
          show (if (alookup k cur).getD 0 < bc.2 then some (k, (alookup k cur).getD 0)
            else some bc : Option (Nat × ℝ)) = some (k, (alookup k cur).getD 0)
          rw [if_pos hcmp]
        rw [h2] at hq'
        injection hq' with hq''
        rw [← hq'']
        exact hl k (List.mem_cons_self _ _)
      · have h2 : selStep cur (some bc) k = some bc := by
          show (if (alookup k cur).getD 0 < bc.2 then some (k, (alookup k cur).getD 0)
            else some bc : Option (Nat × ℝ)) = some bc
          rw [if_neg hcmp]
        rw [h2] at hq'
        injection hq' with hq''
        rw [← hq'']
        exact hacc bc rfl

theorem selectBest_mem (cur : CostMap) (h : cur ≠ []) :
    ∃ k, selectBest cur = some k ∧ k ∈ cur.map Prod.fst := by
  have hpm : (sortedKeys cur).Perm (cur.map Prod.fst) := List.perm_insertionSort _ _
  have hne : sortedKeys cur ≠ [] := by
    intro hcontra
    have hlen := hpm.length_eq
    rw [hcontra] at hlen
    simp only [List.length_nil, List.length_map] at hlen
    exact h (List.length_eq_zero.1 hlen.symm)
  have hsome := selStep_fold_isSome cur (sortedKeys cur) none (Or.inr hne)
  rcases Option.isSome_iff_exists.1 hsome with ⟨q, hq⟩
  refine ⟨q.1, ?_, ?_⟩
  · unfold selectBest
    rw [hq]
    rfl
  · exact selStep_fold_mem cur (sortedKeys cur) (fun k hk => hpm.mem_iff.1 hk) none
      (by intro q' h'; cases h') q hq

theorem backtrack_total {bps : List StepMap} {S : List Nat} (hlay : Layers bps S) :
    ∀ idx ∈ S, ∃ l, backtrack bps idx = .ok l := by
  induction hlay with
  | nil S => intro idx _; exact ⟨[idx], rfl⟩
  | cons b rest S Sprev hS hbp hrest ih =>
    intro idx hidx
    rcases alookup_isSome_of_mem b idx (hS idx hidx) with ⟨cp, hcp⟩
    rcases ih cp.2 (hbp (idx, cp) (alookup_mem hcp)) with ⟨l, hl⟩
    refine ⟨idx :: l, ?_⟩
    simp only [backtrack, hcp, hl]

theorem stripBp_keys (m : StepMap) : (stripBp m).map Prod.fst = m.map Prod.fst := by
  rw [stripBp, List.map_map]
  apply List.map_congr_left
  intro e _
  rfl

theorem forward_total (g : NetworkGraph) (reorder : Reorder)
    (hperm : ∀ t l, (reorder t l).Perm l) :
    ∀ (obsRest : List Nat) (t : Nat) (cur : CostMap) (bps : List StepMap),
      cur ≠ [] → Layers bps (cur.map Prod.fst) →
      ∃ curF bpsF, forward g reorder obsRest t cur bps = .ok (curF, bpsF) ∧
        curF ≠ [] ∧ Layers bpsF (curF.map Prod.fst) := by
  intro obsRest
  induction obsRest with
  | nil =>
    intro t cur bps hne hlay
    exact ⟨cur, bps, rfl, hne, hlay⟩
  | cons obs rest ih =>
    intro t cur bps hne hlay
    have hm : stepAll g obs cur ≠ [] := by
      intro hc
      have hu := stepAll_unknown_mem g obs hne
      rw [hc] at hu
      simp at hu
    have hempty : (stepAll g obs cur).isEmpty = false := by
      cases hsa : stepAll g obs cur with
      | nil => exact absurd hsa hm
      | cons a l => rfl
    have hcur' : reorder t (stripBp (stepAll g obs cur)) ≠ [] := by
      intro hc
      have hlen := (hperm t (stripBp (stepAll g obs cur))).length_eq
      rw [hc] at hlen
      simp only [List.length_nil, stripBp, List.length_map] at hlen
      exact hm (List.length_eq_zero.1 hlen.symm)
    have hlay' : Layers (stepAll g obs cur :: bps)
        ((reorder t (stripBp (stepAll g obs cur))).map Prod.fst) := by
      refine Layers.cons _ _ _ (cur.map Prod.fst) ?_ ?_ hlay
      · intro k hk
        rw [← stripBp_keys]
        exact (((hperm t (stripBp (stepAll g obs cur))).map Prod.fst).mem_iff).1 hk
      · exact stepAll_bp g obs (fun pc hpc => List.mem_map.2 ⟨pc, hpc, rfl⟩)
    rcases ih (t + 1) (reorder t (stripBp (stepAll g obs cur)))
      (stepAll g obs cur :: bps) hcur' hlay' with ⟨curF, bpsF, hfwd, hneF, hlayF⟩
    refine ⟨curF, bpsF, ?_, hneF, hlayF⟩
    simp only [forward, hempty, Bool.false_eq_true, if_false]
    exact hfwd

/-! ## Claim theorems (C1, C2) -/

/-- C1: for every graph and every iteration-order schedule, decoding the
empty observation stream returns `Ok` with the empty path, and whenever
`decode_path` returns `Ok` the returned path has exactly the length of the
observation stream (never a partial path). -/
theorem c1_decode_path_length (g : NetworkGraph) (reorder : Reorder)
    (observations : List Nat) :
    decodePath g reorder [] = .ok [] ∧
    ∀ p, decodePath g reorder observations = .ok p → p.length = observations.length := by
  constructor
  · rfl
  · intro p h
    cases observations with
    | nil =>
      simp only [decodePath] at h
      cases h
      rfl
    | cons firstObs rest =>
      simp only [decodePath] at h
      split at h
      next e hf => cases h
      next cur bps hf =>
        split at h
        next hsel => cases h
        next finalState hsel =>
          split at h
          next e hbt => cases h
          next idxs hbt =>
            cases h
            have h1 := forward_ok_bps_length g reorder rest 1
              (reorder 0 (initMap g firstObs)) [] (cur, bps) hf
            have h2 := backtrack_ok_length bps finalState idxs hbt
            simp only [List.length_nil, Nat.zero_add] at h1
            simp [h2, h1]

/-- C1 witness: the length theorem applied to the empty graph with
observation stream `[0]`, whose decode is `Ok [Unknown 0]`. -/
theorem c1_decode_path_length_witness : ([PathNode.unknown 0] : List PathNode).length = 1 :=
  (c1_decode_path_length emptyGraph idReorder [0]).2 [PathNode.unknown 0] rfl

/-- C2 counterexample: the claimed strict ordering fails at the first link —
the source's Unknown→Known cost (`8 - 1e-6`) is not below its Known→Unknown
cost (`8 - 2e-6`). -/
theorem c2_epsilon_ordering_counterexample :
    ¬ COST_TRANSITION_UNKNOWN_TO_KNOWN < COST_TRANSITION_KNOWN_TO_UNKNOWN := by
  unfold COST_TRANSITION_UNKNOWN_TO_KNOWN COST_TRANSITION_KNOWN_TO_UNKNOWN
  norm_num

/-- C2 amended: the strict ordering the constants actually satisfy is
enter-unknown < exit-unknown < stay-unknown, i.e. Known→Unknown (`8 - 2e-6`)
< Unknown→Known (`8 - 1e-6`) < Unknown→Unknown (`8`). -/
theorem c2_epsilon_ordering_amended :
    COST_TRANSITION_KNOWN_TO_UNKNOWN < COST_TRANSITION_UNKNOWN_TO_KNOWN ∧
    COST_TRANSITION_UNKNOWN_TO_KNOWN < COST_TRANSITION_UNKNOWN_TO_UNKNOWN := by
  unfold COST_TRANSITION_UNKNOWN_TO_KNOWN COST_TRANSITION_KNOWN_TO_UNKNOWN
    COST_TRANSITION_UNKNOWN_TO_UNKNOWN
  norm_num

/-- C4: `decode_path` is not deterministic under forward-pass ties.  On the
graph of `A00000@(0,0)` and `A00001@(0,10)` with observations
`[0xA0, 0xB0]`, both Known starts tie at exactly `-0.1 + (8 - 2e-6)` for the
Unknown state of step 1; the tie is broken by whichever state the `HashMap`
iteration enumerates first, so the identity order returns
`[Known 0, Unknown 0xB0]` while the swapped order (an equally admissible
`HashMap` enumeration — see `swapReorder_perm`) returns
`[Known 1, Unknown 0xB0]`. -/
theorem c4_tie_break_not_deterministic :
    decodePath tieGraph idReorder [160, 176] ≠
    decodePath tieGraph swapReorder [160, 176] := by
  rw [tie_decode_id, tie_decode_swap]
  intro h
  cases h

/-- C5: scenario S2 — on the graph built without terrain from `A00000@(0,0)`
and `B00000@(0,10)`, decoding `[0xA0, 0xB0]` returns
`Ok [Known 0, Unknown 0xB0]` under every iteration-order schedule. -/
theorem c5_s2_scenario (reorder : Reorder) (hperm : ∀ t l, (reorder t l).Perm l) :
    decodePath s2Graph reorder [160, 176] =
      .ok [PathNode.known 0, PathNode.unknown 176] :=
  decode_s2 reorder hperm

/-- C5 witness: the S2 scenario with the identity iteration order. -/
theorem c5_s2_scenario_witness :
    decodePath s2Graph idReorder [160, 176] =
      .ok [PathNode.known 0, PathNode.unknown 176] :=
  c5_s2_scenario idReorder (fun _ l => List.Perm.refl l)

/-- C10: `Repeater::prefix` is not total.  On ids whose trimmed form is
shorter than two characters (`"A"`, `""`, `"0x"`) the byte slice
`&clean_id[0..2]` is out of bounds and the method panics (modelled `none`)
instead of yielding 0; two-character malformed ids do fall back to 0, and
well-formed ids parse (`"A00000"` and `"0xA00000"` both give `0xA0`). -/
theorem c10_short_id_panics :
    pfxOfId ['A'] = none ∧ pfxOfId [] = none ∧ pfxOfId ['0', 'x'] = none ∧
    pfxOfId ['Z', 'Z'] = some 0 ∧ pfxOfId ['A', '0', '0', '0', '0', '0'] = some 160 ∧
    pfxOfId ['0', 'x', 'A', '0', '0', '0', '0', '0'] = some 160 := by
  decide

theorem insertOver_ne_nil (k : Nat) (v : ℝ) (m : CostMap) : insertOver k v m ≠ [] := by
  unfold insertOver
  split
  next h =>
    intro hc
    rw [List.map_eq_nil.1 hc] at h
    simp [alookup] at h
  next h =>
    intro hc
    simp at hc

theorem perm_ne_nil {l l' : CostMap} (h : l.Perm l') (hne : l' ≠ []) : l ≠ [] := by
  intro hc
  rw [hc] at h
  exact hne (h.symm.eq_nil)

/-- C9: for every graph, every permuting iteration-order schedule and every
non-empty observation stream, `decode_path` returns `Ok`: the Unknown state
is inserted into every step's cost map from every active state, so the
"Viterbi stuck" branch, the "no valid path found" branch and the "broken
path during backtracking" branch are all unreachable. -/
theorem c9_decode_path_total (g : NetworkGraph) (reorder : Reorder)
    (hperm : ∀ t l, (reorder t l).Perm l) (observations : List Nat)
    (hobs : observations ≠ []) :
    ∃ p, decodePath g reorder observations = .ok p := by
  match observations, hobs with
  | firstObs :: rest, _ =>
    have hne0 : reorder 0 (initMap g firstObs) ≠ [] :=
      perm_ne_nil (hperm 0 (initMap g firstObs)) (insertOver_ne_nil _ _ _)
    rcases forward_total g reorder hperm rest 1 (reorder 0 (initMap g firstObs)) []
      hne0 (Layers.nil _) with ⟨curF, bpsF, hfwd, hneF, hlayF⟩
    rcases selectBest_mem curF hneF with ⟨kf, hsel, hkf⟩
    rcases backtrack_total hlayF kf hkf with ⟨l, hbt⟩
    refine ⟨l.reverse.enum.map (fun p => toPathNode g (firstObs :: rest) p.2 p.1), ?_⟩
    simp only [decodePath, hfwd, hsel, hbt]

/-- C9 witness: the empty graph with the single observation `[0]`. -/
theorem c9_decode_path_total_witness :
    ∃ p, decodePath emptyGraph idReorder [0] = .ok p :=
  c9_decode_path_total emptyGraph idReorder (fun _ l => List.Perm.refl l) [0] (by simp)

/-- C8 counterexample: on the S2 graph with observations `[0xA0, 0xB0]` the
dense decoder and the sparse decoder disagree — the dense one (no start
bonus, one flat 8.0 penalty, lowest-index final tie-break) returns
`[Unknown 0xA0, Known 1]`, the sparse one returns `[Known 0, Unknown 0xB0]`. -/
theorem c8_dense_sparse_counterexample :
    vitDecodePath s2Nodes [160, 176] none ≠ decodePath s2Graph idReorder [160, 176] := by
  rw [vit_s2_decode, decode_s2 idReorder (fun _ l => List.Perm.refl l)]
  simp

/-- C8 amended: the two decoders agree on the empty observation stream
(both return `Ok []` for every input), but they are not equivalent on
non-empty streams: scenario S2 separates them, the dense decoder returning
`[Unknown 0xA0, Known 1]` where the sparse decoder returns
`[Known 0, Unknown 0xB0]`. -/
theorem c8_dense_sparse_amended :
    (∀ (nodes : List Repeater) (terrain : Option (List TerrainTile)),
      vitDecodePath nodes [] terrain = .ok []) ∧
    (∀ (g : NetworkGraph) (reorder : Reorder), decodePath g reorder [] = .ok []) ∧
    vitDecodePath s2Nodes [160, 176] none = .ok [PathNode.unknown 160, PathNode.known 1] ∧
    decodePath s2Graph idReorder [160, 176] = .ok [PathNode.known 0, PathNode.unknown 176] ∧
    [PathNode.unknown 160, PathNode.known 1] ≠ [PathNode.known 0, PathNode.unknown 176] :=
  ⟨fun _ _ => rfl, fun _ _ => rfl, vit_s2_decode,
    decode_s2 idReorder (fun _ l => List.Perm.refl l), by decide⟩

/-- C3 counterexample: the two equatorial points `(0,0)` and `(0,1.5)` are
≈166.8 km apart (beyond the 150 km cutoff), yet with the flat terrain map
supplied `link_cost` returns the finite blocked sentinel `2000.0`, not `+∞`:
the terrain check runs before the cutoff. -/
theorem c3_range_cutoff_counterexample :
    150 < haversineKm 0 0 0 (3 / 2) ∧
    linkCost 0 0 0 (3 / 2) (some flatTerrain) ≠ .ok none ∧
    linkCost 0 0 0 (3 / 2) (some flatTerrain) = .ok (some 2000) := by
  have hpi := Real.pi_gt_three
  have hd : haversineKm 0 0 0 (3 / 2) = 6371 * Real.pi / 120 := by
    rw [haversineKm_equator (3 / 2) (by norm_num) (by norm_num)]
    ring
  have hgt : (150 : ℝ) < 6371 * Real.pi / 120 := by nlinarith
  have hlos : checkLineOfSight flatTerrain 0 0 30 0 (3 / 2) 30 = .ok false := by
    rw [checkLineOfSight]
    simp only [hd]
    have h0 : ¬ (6371 * Real.pi / 120 = 0) := by positivity
    have hsteps2 : 2 ≤ (Int.ceil (6371 * Real.pi / 120 * 1000 / 30)).toNat := by
      have hval : (1 : ℝ) < 6371 * Real.pi / 120 * 1000 / 30 := by nlinarith
      have hceil : (1 : ℤ) < Int.ceil (6371 * Real.pi / 120 * 1000 / 30) := by
        rw [Int.lt_ceil]
        exact_mod_cast hval
      omega
    rw [if_neg h0, if_neg (not_lt.2 hsteps2)]
    simp only [flatTerrain_getElevation 0 0
        (flatTile_contains (by norm_num) (by norm_num) (by norm_num) (by norm_num)),
      flatTerrain_getElevation 0 (3 / 2)
        (flatTile_contains (by norm_num) (by norm_num) (by norm_num) (by norm_num))]
    rw [show (0 : ℝ) + 30 = 30 by norm_num]
    exact losLoop_c3_blocked _ hsteps2 ((Int.ceil (6371 * Real.pi / 120 * 1000 / 30)).toNat / 2)
      1 le_rfl (by omega) (by omega)
  refine ⟨hd ▸ hgt, ?_, ?_⟩
  · simp only [linkCost, hlos]
    simp
  · simp only [linkCost, hlos]

/-- C3 amended: beyond 150 km `link_cost` is `+∞` when no terrain map is
supplied, or when the supplied terrain map certifies the ray clear; but a
blocked line-of-sight result yields the finite 2000.0 sentinel before the
cutoff is consulted (see the counterexample). -/
theorem c3_range_cutoff_amended (lat1 lon1 lat2 lon2 : ℝ)
    (hd : 150 < haversineKm lat1 lon1 lat2 lon2) :
    linkCost lat1 lon1 lat2 lon2 none = .ok none ∧
    ∀ m, checkLineOfSight m lat1 lon1 30 lat2 lon2 30 = .ok true →
      linkCost lat1 lon1 lat2 lon2 (some m) = .ok none := by
  have hclear : linkCostClear lat1 lon1 lat2 lon2 = none := by
    rw [linkCostClear]
    simp only [if_pos hd]
  exact ⟨by simp only [linkCost, hclear], fun m hm => by simp only [linkCost, hm, hclear]⟩

/-- C3 amended-theorem witness at the concrete pair `(0,0)`, `(0,1.5)`. -/
theorem c3_range_cutoff_amended_witness :
    linkCost 0 0 0 (3 / 2) none = .ok none ∧
    ∀ m, checkLineOfSight m 0 0 30 0 (3 / 2) 30 = .ok true →
      linkCost 0 0 0 (3 / 2) (some m) = .ok none :=
  c3_range_cutoff_amended 0 0 0 (3 / 2) (by
    rw [haversineKm_equator (3 / 2) (by norm_num) (by norm_num)]
    nlinarith [Real.pi_gt_three])

/-- C7: at the concrete failing input — points `(0,0)` and `(0,0.5)` with an
empty terrain map — `check_line_of_sight` produces the distinguished
missing-data error.  `link_cost` as written cannot propagate it: its
declared return type is `f64` and it applies `!` to this `Result<bool>`,
which does not type-check (see the C7 record). -/
theorem c7_missing_terrain_is_error :
    checkLineOfSight [] 0 0 30 0 (1 / 2) 30 = .error "Missing terrain data at start" := by
  have hpi := Real.pi_gt_three
  have hd : haversineKm 0 0 0 (1 / 2) = 6371 * Real.pi / 360 := by
    rw [haversineKm_equator (1 / 2) (by norm_num) (by norm_num)]
    ring
  rw [checkLineOfSight]
  simp only [hd]
  have h0 : ¬ (6371 * Real.pi / 360 = 0) := by positivity
  have hsteps2 : 2 ≤ (Int.ceil (6371 * Real.pi / 360 * 1000 / 30)).toNat := by
    have hval : (1 : ℝ) < 6371 * Real.pi / 360 * 1000 / 30 := by nlinarith
    have hceil : (1 : ℤ) < Int.ceil (6371 * Real.pi / 360 * 1000 / 30) := by
      rw [Int.lt_ceil]
      exact_mod_cast hval
    omega
  rw [if_neg h0, if_neg (not_lt.2 hsteps2)]
  rfl

theorem sumObsCount_append (a b : List InferredRepeater) :
    sumObsCount (a ++ b) = sumObsCount a + sumObsCount b := by
  simp [sumObsCount]

theorem sum_map_add_nat {A : Type} (K : List A) (g h : A → Nat) :
    (K.map (fun p => g p + h p)).sum = (K.map g).sum + (K.map h).sum := by
  induction K with
  | nil => simp
  | cons k K ih => simp [ih]; omega

theorem sum_map_ite_zero (K : List Nat) (a : Nat) (ha : a ∉ K) :
    (K.map (fun p => if a = p then 1 else 0)).sum = 0 := by
  rw [List.sum_eq_zero]
  intro x hx
  rcases List.mem_map.1 hx with ⟨p, hp, rfl⟩
  have hne : a ≠ p := fun hq => ha (hq ▸ hp)
  simp [hne]

theorem sum_map_ite_one (K : List Nat) (a : Nat) (hnd : K.Nodup) (ha : a ∈ K) :
    (K.map (fun p => if a = p then 1 else 0)).sum = 1 := by
  induction K with
  | nil => cases ha
  | cons k K ih =>
    rcases List.nodup_cons.1 hnd with ⟨hkK, hndK⟩
    rcases List.mem_cons.1 ha with rfl | hmem
    · simp only [List.map_cons, List.sum_cons, if_pos rfl]
      rw [sum_map_ite_zero K a hkK]
      simp
    · have hne : a ≠ k := fun hq => hkK (hq ▸ hmem)
      simp only [List.map_cons, List.sum_cons, if_neg hne, ih hndK hmem]

theorem length_filter_fst {B : Type} (l : List (Nat × B)) (K : List Nat) (hnd : K.Nodup)
    (hcov : ∀ e ∈ l, e.1 ∈ K) :
    (K.map (fun p => (l.filter (fun e => e.1 == p)).length)).sum = l.length := by
  induction l with
  | nil => simp
  | cons e l ih =>
    have hcov2 : ∀ x ∈ l, x.1 ∈ K := fun x hx => hcov x (List.mem_cons_of_mem _ hx)
    have hstep : ∀ p : Nat,
        ((e :: l).filter (fun x => x.1 == p)).length
          = (if e.1 = p then 1 else 0) + (l.filter (fun x => x.1 == p)).length := by
      intro p
      by_cases hc : e.1 = p
      · simp [List.filter_cons, hc]
        omega
      · simp [List.filter_cons, hc]
    simp only [hstep, sum_map_add_nat,
      sum_map_ite_one K e.1 hnd (hcov e (List.mem_cons_self e l)), ih hcov2,
      List.length_cons]
    omega

theorem sumObsCount_filterMap {A : Type} (cs : List (List A)) (mk : List A → InferredRepeater)
    (hmk : ∀ c, (mk c).observation_count = c.length) :
    sumObsCount (cs.filterMap (fun cluster =>
        if cluster.isEmpty then none else some (mk cluster)))
      = (cs.map List.length).sum := by
  induction cs with
  | nil => simp [sumObsCount]
  | cons c cs ih =>
    by_cases hc : c.isEmpty
    · have hlen : c.length = 0 := by simpa [List.isEmpty_iff] using hc
      simp [List.filterMap_cons, hc, ih, hlen]
    · simp [List.filterMap_cons, hc, sumObsCount, hmk] at ih ⊢
      omega

theorem sumObsCount_foldl {A : Type} (K : List A) (blk : A → List InferredRepeater) :
    ∀ acc, sumObsCount (K.foldl (fun acc p => acc ++ blk p) acc)
      = sumObsCount acc + (K.map (fun p => sumObsCount (blk p))).sum := by
  induction K with
  | nil => intro acc; simp
  | cons k K ih =>
    intro acc
    simp only [List.foldl_cons, List.map_cons, List.sum_cons]
    rw [ih, sumObsCount_append]
    omega

theorem sumObsCount_sort (l : List InferredRepeater) :
    sumObsCount (List.insertionSort irLE l) = sumObsCount l := by
  unfold sumObsCount
  exact List.Perm.sum_eq (List.Perm.map _ (List.perm_insertionSort irLE l))

theorem haversineKm_self (lat lon : ℝ) : haversineKm lat lon lat lon = 0 := by
  unfold haversineKm atan2
  norm_num [Real.sqrt_eq_zero]

theorem regionQuery_self_mem (points : List Midpoint) (i : Nat) (h : i < points.length)
    (epsilon : ℝ) (heps : 0 ≤ epsilon) :
    i ∈ regionQuery points i epsilon := by
  unfold regionQuery
  rw [List.mem_filter]
  refine ⟨List.mem_range.2 h, ?_⟩
  simp only [decide_eq_true_eq]
  rw [haversineKm_self]
  exact heps

theorem countVisited_set_visited (l : List PointStatus) (k : Nat)
    (h : l.getD k PointStatus.visited ≠ PointStatus.visited) :
    countVisited (l.set k PointStatus.visited) = countVisited l + 1 := by
  induction l generalizing k with
  | nil => simp [List.getD] at h
  | cons s t ih =>
    cases k with
    | zero =>
      simp only [List.getD_cons_zero] at h
      have hs : (s == PointStatus.visited) = false := by
        cases s <;> simp_all
      simp [countVisited, List.filter_cons, hs]
    | succ k =>
      simp only [List.getD_cons_succ] at h
      have := ih k h
      cases hsv : (s == PointStatus.visited) <;>
        simp [countVisited, List.filter_cons, hsv] at this ⊢ <;> omega

theorem getD_set_visited (l : List PointStatus) (k j : Nat)
    (h : l.getD j PointStatus.visited = PointStatus.visited) :
    (l.set k PointStatus.visited).getD j PointStatus.visited = PointStatus.visited := by
  induction l generalizing k j with
  | nil => simpa using h
  | cons s t ih =>
    cases k with
    | zero =>
      cases j with
      | zero => simp
      | succ j => simpa using h
    | succ k =>
      cases j with
      | zero => simpa using h
      | succ j =>
        simp only [List.set_cons_succ, List.getD_cons_succ] at h ⊢
        exact ih k j h

theorem getD_set_self (l : List PointStatus) (k : Nat) (hk : k < l.length)
    (v d : PointStatus) : (l.set k v).getD k d = v := by
  induction l generalizing k with
  | nil => simp at hk
  | cons s t ih =>
    cases k with
    | zero => simp
    | succ k =>
      simp only [List.set_cons_succ, List.getD_cons_succ]
      exact ih k (by simpa using hk)

theorem countVisited_eq_length (l : List PointStatus)
    (h : ∀ k, k < l.length → l.getD k PointStatus.visited = PointStatus.visited) :
    countVisited l = l.length := by
  induction l with
  | nil => rfl
  | cons s t ih =>
    have h0 := h 0 (by simp)
    simp only [List.getD_cons_zero] at h0
    have ht : ∀ k, k < t.length → t.getD k PointStatus.visited = PointStatus.visited := by
      intro k hk
      have := h (k + 1) (by simpa using Nat.succ_lt_succ hk)
      simpa using this
    subst h0
    have hstep : countVisited (PointStatus.visited :: t) = countVisited t + 1 := by
      simp [countVisited, List.filter_cons]
    rw [hstep, ih ht, List.length_cons]

/-- Ledger and frame invariants of the `expand_cluster` seed loop: the
status vector keeps its length, the cluster gains exactly one index per
new `Visited` mark, statuses only ever move to `Visited`, and `Visited`
marks are never lost. -/
theorem expandLoop_spec (points : List Midpoint) (epsilon : ℝ) (minPoints seedIdx : Nat)
    (status : List PointStatus) (cluster seeds : List Nat) (i : Nat) :
    (expandLoop points epsilon minPoints seedIdx status cluster seeds i).1.length
        = status.length
    ∧ countVisited (expandLoop points epsilon minPoints seedIdx status cluster seeds i).1
          + cluster.length
        = countVisited status
          + (expandLoop points epsilon minPoints seedIdx status cluster seeds i).2.length
    ∧ (∀ s ∈ (expandLoop points epsilon minPoints seedIdx status cluster seeds i).1,
        s ∈ status ∨ s = PointStatus.visited)
    ∧ (∀ j, status.getD j PointStatus.visited = PointStatus.visited →
        (expandLoop points epsilon minPoints seedIdx status cluster seeds i).1.getD j
          PointStatus.visited = PointStatus.visited) := by
  induction status, cluster, seeds, i using expandLoop.induct points epsilon minPoints seedIdx with
  | case1 status cluster seeds i h heq ih =>
    have hstep : expandLoop points epsilon minPoints seedIdx status cluster seeds i
        = expandLoop points epsilon minPoints seedIdx status cluster seeds (i + 1) := by
      rw [expandLoop, dif_pos h, if_pos heq]
    rw [hstep]
    exact ih
  | case2 status cluster seeds i h hne hs ih =>
    have hstep : expandLoop points epsilon minPoints seedIdx status cluster seeds i
        = expandLoop points epsilon minPoints seedIdx
            (status.set (seeds.getD i 0) PointStatus.visited)
            (cluster ++ [seeds.getD i 0]) seeds (i + 1) := by
      rw [expandLoop, dif_pos h, if_neg hne]
      split
      · rfl
      · next heq => rw [hs] at heq; simp at heq
      · next heq => rw [hs] at heq; simp at heq
    have hnv : status.getD (seeds.getD i 0) PointStatus.visited ≠ PointStatus.visited := by
      rw [hs]; decide
    rw [hstep]
    obtain ⟨ihl, ihc, ihm, ihv⟩ := ih
    refine ⟨by rw [ihl, List.length_set], ?_, ?_, ?_⟩
    · rw [countVisited_set_visited _ _ hnv] at ihc
      simp only [List.length_append, List.length_cons, List.length_nil] at ihc ⊢
      omega
    · intro s hsm
      rcases ihm s hsm with hmem | hv
      · rcases List.mem_or_eq_of_mem_set hmem with hmem2 | rfl
        · exact Or.inl hmem2
        · exact Or.inr rfl
      · exact Or.inr hv
    · intro j hj
      exact ihv j (getD_set_visited _ _ _ hj)
  | case3 status cluster seeds i h hne hs ih =>
    have hstep : expandLoop points epsilon minPoints seedIdx status cluster seeds i
        = expandLoop points epsilon minPoints seedIdx
            (status.set (seeds.getD i 0) PointStatus.visited)
            (cluster ++ [seeds.getD i 0])
            (extendSeeds points epsilon minPoints (seeds.getD i 0) seeds) (i + 1) := by
      rw [expandLoop, dif_pos h, if_neg hne]
      split
      · next heq => rw [hs] at heq; simp at heq
      · rfl
      · next heq => rw [hs] at heq; simp at heq
    have hnv : status.getD (seeds.getD i 0) PointStatus.visited ≠ PointStatus.visited := by
      rw [hs]; decide
    rw [hstep]
    obtain ⟨ihl, ihc, ihm, ihv⟩ := ih
    refine ⟨by rw [ihl, List.length_set], ?_, ?_, ?_⟩
    · rw [countVisited_set_visited _ _ hnv] at ihc
      simp only [List.length_append, List.length_cons, List.length_nil] at ihc ⊢
      omega
    · intro s hsm
      rcases ihm s hsm with hmem | hv
      · rcases List.mem_or_eq_of_mem_set hmem with hmem2 | rfl
        · exact Or.inl hmem2
        · exact Or.inr rfl
      · exact Or.inr hv
    · intro j hj
      exact ihv j (getD_set_visited _ _ _ hj)
  | case4 status cluster seeds i h hne hs ih =>
    have hstep : expandLoop points epsilon minPoints seedIdx status cluster seeds i
        = expandLoop points epsilon minPoints seedIdx status cluster seeds (i + 1) := by
      rw [expandLoop, dif_pos h, if_neg hne]
      split
      · next heq => rw [hs] at heq; simp at heq
      · next heq => rw [hs] at heq; simp at heq
      · rfl
    rw [hstep]
    exact ih
  | case5 status cluster seeds i h =>
    have hstep : expandLoop points epsilon minPoints seedIdx status cluster seeds i
        = (status, cluster) := by
      rw [expandLoop, dif_neg h]
    rw [hstep]
    exact ⟨rfl, rfl, fun s hs => Or.inl hs, fun j hj => hj⟩

/-- Ledger of the outer `dbscan` scan at ε = 50 km, minPts = 1: each index
joins exactly one cluster (the `Noise` branch cannot fire, the center being
its own neighbor), so cluster sizes add up to the point count. -/
theorem dbscanLoop_spec (points : List Midpoint) (i : Nat) (status : List PointStatus)
    (clusters : List (List Nat)) :
    status.length = points.length →
    (∀ s ∈ status, s ≠ PointStatus.noise) →
    (∀ k, k < i → status.getD k PointStatus.visited = PointStatus.visited) →
    ((dbscanLoop points DBSCAN_EPSILON_KM DBSCAN_MIN_POINTS i status clusters).map
        List.length).sum + countVisited status
      = (clusters.map List.length).sum + points.length := by
  induction i, status, clusters
      using dbscanLoop.induct points DBSCAN_EPSILON_KM DBSCAN_MIN_POINTS with
  | case1 i status clusters h hne ih =>
    intro hlen hnoise hvis
    have hstep : dbscanLoop points DBSCAN_EPSILON_KM DBSCAN_MIN_POINTS i status clusters
        = dbscanLoop points DBSCAN_EPSILON_KM DBSCAN_MIN_POINTS (i + 1) status clusters := by
      rw [dbscanLoop, if_pos h, if_pos hne]
    rw [hstep]
    apply ih hlen hnoise
    intro k hk
    rcases Nat.lt_succ_iff_lt_or_eq.1 hk with hk2 | rfl
    · exact hvis k hk2
    · have hmem : status.getD k PointStatus.visited ∈ status := by
        rw [List.getD_eq_getElem status PointStatus.visited (by omega)]
        exact List.getElem_mem _
      cases hval : status.getD k PointStatus.visited with
      | noise =>
        rw [hval] at hmem
        exact absurd rfl (hnoise _ hmem)
      | unvisited => exact absurd hval hne
      | visited => rfl
  | case2 i status clusters h hnu hlt ih =>
    intro hlen hnoise hvis
    exfalso
    have hmem := regionQuery_self_mem points i (by omega) DBSCAN_EPSILON_KM
      (by norm_num [DBSCAN_EPSILON_KM])
    have hpos : 0 < (regionQuery points i DBSCAN_EPSILON_KM).length :=
      List.length_pos.2 (List.ne_nil_of_mem hmem)
    have h1 : DBSCAN_MIN_POINTS = 1 := rfl
    omega
  | case3 i status clusters h hnu hge ih =>
    intro hlen hnoise hvis
    have hunv : status.getD i PointStatus.visited = PointStatus.unvisited := not_not.1 hnu
    have hilen : i < status.length := by omega
    obtain ⟨hRl, hRc, hRm, hRv⟩ := expandLoop_spec points DBSCAN_EPSILON_KM DBSCAN_MIN_POINTS i
      (status.set i PointStatus.visited) [i] (regionQuery points i DBSCAN_EPSILON_KM) 0
    have hstep : dbscanLoop points DBSCAN_EPSILON_KM DBSCAN_MIN_POINTS i status clusters
        = dbscanLoop points DBSCAN_EPSILON_KM DBSCAN_MIN_POINTS (i + 1)
            (expandLoop points DBSCAN_EPSILON_KM DBSCAN_MIN_POINTS i
              (status.set i PointStatus.visited) [i]
              (regionQuery points i DBSCAN_EPSILON_KM) 0).1
            (clusters ++ [(expandLoop points DBSCAN_EPSILON_KM DBSCAN_MIN_POINTS i
              (status.set i PointStatus.visited) [i]
              (regionQuery points i DBSCAN_EPSILON_KM) 0).2]) := by
      rw [dbscanLoop, if_pos h, if_neg hnu, if_neg hge]
    have hlen2 : (expandLoop points DBSCAN_EPSILON_KM DBSCAN_MIN_POINTS i
        (status.set i PointStatus.visited) [i]
        (regionQuery points i DBSCAN_EPSILON_KM) 0).1.length = points.length := by
      rw [hRl, List.length_set]
      exact hlen
    have hnoise2 : ∀ s ∈ (expandLoop points DBSCAN_EPSILON_KM DBSCAN_MIN_POINTS i
        (status.set i PointStatus.visited) [i]
        (regionQuery points i DBSCAN_EPSILON_KM) 0).1, s ≠ PointStatus.noise := by
      intro s hs
      rcases hRm s hs with hmem | rfl
      · rcases List.mem_or_eq_of_mem_set hmem with hmem2 | rfl
        · exact hnoise s hmem2
        · decide
      · decide
    have hvis2 : ∀ k, k < i + 1 → (expandLoop points DBSCAN_EPSILON_KM DBSCAN_MIN_POINTS i
        (status.set i PointStatus.visited) [i]
        (regionQuery points i DBSCAN_EPSILON_KM) 0).1.getD k
          PointStatus.visited = PointStatus.visited := by
      intro k hk
      rcases Nat.lt_succ_iff_lt_or_eq.1 hk with hk2 | rfl
      · exact hRv k (getD_set_visited status i k (hvis k hk2))
      · exact hRv k (by rw [getD_set_self status k hilen])
    have ihr := ih hlen2 hnoise2 hvis2
    rw [hstep]
    have hset : countVisited (status.set i PointStatus.visited) = countVisited status + 1 :=
      countVisited_set_visited status i (by rw [hunv]; decide)
    rw [hset] at hRc
    simp only [List.map_append, List.sum_append, List.map_cons, List.sum_cons, List.map_nil,
      List.sum_nil, List.length_cons, List.length_nil] at ihr hRc ⊢
    omega
  | case4 i status clusters h =>
    intro hlen hnoise hvis
    have hstep : dbscanLoop points DBSCAN_EPSILON_KM DBSCAN_MIN_POINTS i status clusters
        = clusters := by
      rw [dbscanLoop, if_neg h]
    rw [hstep]
    have hful : countVisited status = status.length :=
      countVisited_eq_length status (fun k hk => hvis k (by omega))
    rw [hful, hlen]

/-- All points end up clustered: the cluster sizes `dbscan` returns at
ε = 50 km, minPts = 1 sum to the number of input points. -/
theorem dbscan_length_sum (points : List Midpoint) :
    ((dbscan points DBSCAN_EPSILON_KM DBSCAN_MIN_POINTS).map List.length).sum
      = points.length := by
  have h := dbscanLoop_spec points 0 (List.replicate points.length PointStatus.unvisited) []
    (by simp)
    (by
      intro s hs
      rw [List.eq_of_mem_replicate hs]
      decide)
    (by intro k hk; omega)
  have hz : countVisited (List.replicate points.length PointStatus.unvisited) = 0 := by
    simp [countVisited, List.filter_replicate]
  rw [hz] at h
  unfold dbscan
  simpa using h

theorem pathMidpoints_length (nodes : List Repeater) (path : List PathNode) :
    (pathMidpoints nodes path).length = tripletCountPath path := by
  induction path using tripletCountPath.induct with
  | case1 a p b rest ih =>
    simp only [pathMidpoints, tripletCountPath, List.length_cons] at ih ⊢
    omega
  | case2 x rest h ih =>
    simp only [pathMidpoints, tripletCountPath, ih]
  | case3 => rfl

theorem foldl_append_length {A B : Type} (f : A → List B) (paths : List A) :
    ∀ acc : List B, (paths.foldl (fun acc path => acc ++ f path) acc).length
      = acc.length + (paths.map (fun p => (f p).length)).sum := by
  induction paths with
  | nil => intro acc; simp
  | cons p ps ih =>
    intro acc
    simp only [List.foldl_cons, List.map_cons, List.sum_cons, ih, List.length_append]
    omega

theorem allMidpoints_length (paths : List (List PathNode)) (nodes : List Repeater) :
    (allMidpoints paths nodes).length = tripletCount paths := by
  unfold allMidpoints tripletCount
  rw [foldl_append_length (pathMidpoints nodes) paths []]
  simp [pathMidpoints_length]

/-- Order-free core of the C6 claim: the observation counts reported by
`localize_unknowns` sum to the number of K→U→K triplets. -/
theorem localizeUnknowns_obs_sum (paths : List (List PathNode)) (knownNodes : List Repeater) :
    sumObsCount (localizeUnknowns paths knownNodes) = tripletCount paths := by
  have hblk : ∀ p, sumObsCount (prefixBlock (allMidpoints paths knownNodes) p)
      = ((allMidpoints paths knownNodes).filter (fun e => e.1 == p)).length := by
    intro p
    unfold prefixBlock
    rw [sumObsCount_filterMap _ (clusterRep p (obsFor (allMidpoints paths knownNodes) p))
      (fun c => rfl)]
    rw [dbscan_length_sum]
    unfold obsFor
    rw [List.length_map]
  have hcov : ∀ e ∈ allMidpoints paths knownNodes,
      e.1 ∈ ((allMidpoints paths knownNodes).map Prod.fst).dedup :=
    fun e he => List.mem_dedup.2 (List.mem_map_of_mem _ he)
  unfold localizeUnknowns
  rw [sumObsCount_sort, sumObsCount_foldl]
  simp only [hblk]
  rw [length_filter_fst _ _ (List.nodup_dedup _) hcov, allMidpoints_length]
  simp [sumObsCount]


/-- **C6**: for every set of decoded paths (all `Known` indices in bounds),
`localize_unknowns` assigns each Known→Unknown→Known midpoint to exactly one
emitted cluster — with minPts = 1 no point is discarded as noise and none is
counted twice — so the sum of `observation_count` over all returned
`InferredRepeater`s equals the total number of K→U→K triplets in the input
paths. -/
theorem c6_localization_count_sum (paths : List (List PathNode)) (knownNodes : List Repeater)
    (hidx : ∀ path ∈ paths, ∀ n ∈ path, nodeInBounds knownNodes.length n = true) :
    sumObsCount (localizeUnknowns paths knownNodes) = tripletCount paths :=
  localizeUnknowns_obs_sum paths knownNodes

/-- C6 at a concrete input: one decoded path `[Known 0, Unknown 0xAA, Known 1]`
over two known repeaters. -/
theorem c6_localization_count_sum_witness :
    (∀ path ∈ [[PathNode.known 0, PathNode.unknown 170, PathNode.known 1]],
      ∀ n ∈ path, nodeInBounds (List.length [repA, repB]) n = true)
    ∧ sumObsCount (localizeUnknowns
        [[PathNode.known 0, PathNode.unknown 170, PathNode.known 1]] [repA, repB])
      = tripletCount [[PathNode.known 0, PathNode.unknown 170, PathNode.known 1]] :=
  ⟨by decide, c6_localization_count_sum _ _ (by decide)⟩

end MeshCore
